import Mathlib

/-!
# Verification of the apex-ai-proxy conversion engine

Shallow embedding of `src/anthropicHandlers.ts` (request validation, JSON
schema cleaning, non-streaming response translation, and the streaming
re-encoder) together with proofs settling the frozen claims C1..C10.

JavaScript values flowing through the translated functions are modelled by
an inductive `Json` type; JavaScript objects are association lists in
insertion order (JS objects preserve insertion order for the string keys
appearing here).  JavaScript truthiness is modelled explicitly where the
source relies on it.
-/

namespace ApexProxy

/-- JSON values (the dynamic values the handler manipulates).  Numbers are
modelled as integers: no claim depends on non-integral numerics. -/
inductive Json where
  | null : Json
  | bool (b : Bool) : Json
  | num (n : Int) : Json
  | str (s : String) : Json
  | arr (elems : List Json) : Json
  | obj (fields : List (String × Json)) : Json
deriving Repr

/-- JavaScript truthiness of a `Json` value (`undefined`/`null`/`false`/`0`/
empty string are falsy; every array and object is truthy). -/
def jsTruthy : Json → Bool
  | .null => false
  | .bool b => b
  | .num n => n != 0
  | .str s => s != ""
  | .arr _ => true
  | .obj _ => true

/-- Truthiness of an optional string (`undefined` or `''` are falsy). -/
def truthyStr : Option String → Bool
  | none => false
  | some s => s != ""

/-- `typeof v === 'object'` in JavaScript: true for `null`, arrays and
plain objects. -/
def isObjTypeof : Json → Bool
  | .null => true
  | .arr _ => true
  | .obj _ => true
  | _ => false

/-- `Array.isArray v`. -/
def isJsArray : Json → Bool
  | .arr _ => true
  | _ => false

/-- Decimal digits of a natural number, most significant first
(the key strings JavaScript uses when an array is spread into an object). -/
def natKeyAux (n : Nat) (acc : List Char) : List Char :=
  let c := Char.ofNat (48 + n % 10)
  if h : n < 10 then c :: acc
  else natKeyAux (n / 10) (c :: acc)
termination_by n
decreasing_by
  exact Nat.div_lt_self (Nat.pos_of_ne_zero (by omega)) (by omega)

/-- The JavaScript object key for array index `n` (the string of its
decimal digits). -/
def natKey (n : Nat) : String := String.mk (natKeyAux n [])

/-- `'0'..'9'`. -/
def isDigitChar (c : Char) : Bool := 48 ≤ c.toNat && c.toNat ≤ 57

/-- Keys unconditionally removed by `cleanJsonSchema`
(`anthropicHandlers.ts:41`). -/
def bannedKey (k : String) : Bool :=
  k == "$schema" || k == "additionalProperties" || k == "title" || k == "examples"

/-- `cleaned.type === 'string'` on an object with fields `fs`.  The source
reads `cleaned.type` while iterating, but the `type` entry is never
deleted or replaced by a string during the loop, so the test is equivalent
to looking at the original fields (see `typeIsString_cleanFields`). -/
def typeIsString (fs : List (String × Json)) : Bool :=
  match fs.lookup "type" with
  | some (.str s) => s == "string"
  | _ => false

mutual

/-- `cleanJsonSchema` (`anthropicHandlers.ts:33-55`).  Non-objects are
returned unchanged (`!schema || typeof schema !== 'object'`); an object is
shallow-copied and its keys filtered/recursed by `cleanFields`; an array
reaching this function (via the `items`/`properties` branches) is spread
by `{ ...schema }` into a plain object keyed by the decimal strings of its
indices, which `spreadClean` models directly: a numeric-string key never
equals `$schema`/`additionalProperties`/`title`/`examples`/`format`/
`properties`/`items`, so per-key filtering degenerates to the generic
nested-object recursion. -/
def cleanJsonSchema : Json → Json
  | .obj fs => .obj (cleanFields (typeIsString fs) fs)
  | .arr xs => .obj (spreadClean 0 xs)
  | j => j

/-- The `for (const key in cleaned)` loop body of `cleanJsonSchema`.
`ts` is the (loop-invariant) value of `cleaned.type === 'string'`. -/
def cleanFields (ts : Bool) : List (String × Json) → List (String × Json)
  | [] => []
  | (k, v) :: rest =>
    if bannedKey k then cleanFields ts rest
    else if k == "format" && ts then cleanFields ts rest
    else if (k == "properties" || k == "items") && isObjTypeof v then
      (k, cleanJsonSchema v) :: cleanFields ts rest
    else if isObjTypeof v && !isJsArray v then
      (k, cleanJsonSchema v) :: cleanFields ts rest
    else (k, v) :: cleanFields ts rest

/-- `cleanFields` specialised to the object `{ ...xs }` obtained by
spreading an array: entry `i` gets key `natKey i`, and only the generic
`typeof v === 'object' && !Array.isArray(v)` branch can fire. -/
def spreadClean (i : Nat) : List Json → List (String × Json)
  | [] => []
  | v :: rest =>
    (natKey i, if isObjTypeof v && !isJsArray v then cleanJsonSchema v else v)
      :: spreadClean (i + 1) rest

end

/-! ### Spec-side predicates for the schema cleaner (C6) -/

mutual

/-- Spec-side reading of "contains the key at any depth": descends into
every object field and every array element. -/
def containsKeyDeep (key : String) : Json → Bool
  | .obj fs => containsKeyDeepFields key fs
  | .arr xs => containsKeyDeepElems key xs
  | _ => false

def containsKeyDeepFields (key : String) : List (String × Json) → Bool
  | [] => false
  | (k, v) :: rest =>
    k == key || containsKeyDeep key v || containsKeyDeepFields key rest

def containsKeyDeepElems (key : String) : List Json → Bool
  | [] => false
  | v :: rest => containsKeyDeep key v || containsKeyDeepElems key rest

end

mutual

/-- The depth-qualified cleanliness that `cleanJsonSchema` actually
establishes: at every object reached by descending through object-valued
fields, no banned key occurs and no `format` key occurs when the object's
`type` is `"string"`.  Array-valued fields (other than spread
`properties`/`items` arrays, which have become objects) are returned
unchanged by the cleaner and are not inspected. -/
def cleanedOk : Json → Bool
  | .obj fs =>
    (fs.all fun kv => !bannedKey kv.1) &&
    (if typeIsString fs then fs.all (fun kv => kv.1 != "format") else true) &&
    cleanedOkFields fs
  | _ => true

def cleanedOkFields : List (String × Json) → Bool
  | [] => true
  | (_, v) :: rest => cleanedOk v && cleanedOkFields rest

end

/-! ### Request validation (`validateRequest`, `anthropicHandlers.ts:60-93`)

The raw request body is modelled with the fields the validator reads.
`messages`, when present, is either an array of messages or some other
JSON value (`notArr`, carrying its truthiness); a message carries an
optional `role` string and an optional arbitrary `content` value. -/

structure RawMessage where
  role : Option String
  content : Option Json
deriving Repr

inductive MessagesField where
  | arr (ms : List RawMessage)
  | notArr (truthy : Bool)
deriving Repr

structure RawBody where
  model : Option String
  max_tokens : Option Int
  messages : Option MessagesField
deriving Repr

inductive ValidationError where
  | modelRequired
  | maxTokensRequired
  | messagesRequired
  | invalidRole
  | missingContent
deriving Repr, DecidableEq

/-- The per-message loop of `validateRequest` (lines 80-87):
`!message.role || (message.role !== 'user' && message.role !== 'assistant')`
rejects, then `!message.content` rejects. -/
def validateMessages : List RawMessage → Option ValidationError
  | [] => none
  | m :: rest =>
    if !truthyStr m.role || (m.role != some "user" && m.role != some "assistant") then
      some .invalidRole
    else if !(match m.content with | some j => jsTruthy j | none => false) then
      some .missingContent
    else validateMessages rest

/-- `validateRequest` (lines 60-93), on a parsed body.  Returns the first
validation error, or `none` when validation passes. -/
def validateRequest (b : RawBody) : Option ValidationError :=
  if !truthyStr b.model then some .modelRequired
  else if !(match b.max_tokens with | some n => decide (0 < n) | none => false) then
    some .maxTokensRequired
  else
    match b.messages with
    | none => some .messagesRequired
    | some (.notArr _) => some .messagesRequired
    | some (.arr []) => some .messagesRequired
    | some (.arr ms) => validateMessages ms

/-- Spec-side (claim C7) rejection condition, following the claim's words:
model empty or missing; `max_tokens` missing or not greater than 0;
`messages` missing, not an array, or empty; some message has a role
outside `{user, assistant}` or null content. -/
def specValidationRejects (b : RawBody) : Bool :=
  (b.model == none || b.model == some "") ||
  (match b.max_tokens with | some n => decide (n ≤ 0) | none => true) ||
  (match b.messages with
   | none => true
   | some (.notArr _) => true
   | some (.arr ms) =>
     ms.isEmpty ||
     ms.any fun m =>
       !(m.role == some "user" || m.role == some "assistant") ||
       (match m.content with | none => true | some .null => true | some _ => false))

/-- Amended rejection condition: as the claim, except that a message is
also rejected when its content is *falsy* (missing, `null`, `false`, `0`
or the empty string), not only when it is null/missing. -/
def amendedValidationRejects (b : RawBody) : Bool :=
  (b.model == none || b.model == some "") ||
  (match b.max_tokens with | some n => decide (n ≤ 0) | none => true) ||
  (match b.messages with
   | none => true
   | some (.notArr _) => true
   | some (.arr ms) =>
     ms.isEmpty ||
     ms.any fun m =>
       !(m.role == some "user" || m.role == some "assistant") ||
       !(match m.content with | some j => jsTruthy j | none => false))

/-! ### The `/v1/messages` handler head (`anthropicHandlers.ts:753-784`) -/

/-- Split a character list at a separator character (JS `String.split`). -/
def splitOnChar (c : Char) : List Char → List (List Char)
  | [] => [[]]
  | a :: rest =>
    if a == c then [] :: splitOnChar c rest
    else
      match splitOnChar c rest with
      | l :: ls => (a :: l) :: ls
      | [] => [[a]]

/-- Outcome of the handler head: either an error response returned before
any upstream contact (`reject`, with the error `type` tag and HTTP
status), or the request is forwarded upstream with the split
model/provider pair (`forward` is the only outcome that contacts the
upstream). -/
inductive HandleOutcome where
  | reject (etype : String) (status : Nat)
  | forward (model provider : String)
deriving Repr, DecidableEq

/-- `handleAnthropicMessagesRequest` up to the upstream `fetch`
(lines 760-784): validation first (each validation failure is a 400
`invalid_request_error` response, line 66-85), then the provider-separator
check `!modelName || modelName.indexOf('#') < 0` which returns a 404
`model_not_found` response (lines 770-772), then
`modelName.split('#')` giving `[model, provider]`. -/
def handleAnthropicMessagesRequest (b : RawBody) : HandleOutcome :=
  match validateRequest b with
  | some _ => .reject "invalid_request_error" 400
  | none =>
    let modelName := b.model.getD ""
    if !truthyStr b.model || !modelName.data.contains '#' then
      .reject "model_not_found" 404
    else
      let parts := splitOnChar '#' modelName.data
      .forward (String.mk (parts.getD 0 [])) (String.mk (parts.getD 1 []))

/-! ### Non-streaming response translation
(`convertNormalResponse`, `anthropicHandlers.ts:384-436`) -/

/-- An upstream (OpenAI-dialect) tool call as read by the translator:
`id`, `function.name`, `function.arguments` (a JSON string). -/
structure OAToolCall where
  id : String
  fname : String
  fargs : String
deriving Repr

/-- `choices[i].message` as read by the translator.  `tool_calls`
distinguishes an absent/null field (`none`) from a present array
(`some`, possibly empty): `if (message.tool_calls)` is JavaScript
truthiness and an empty array is truthy. -/
structure OAMessage where
  content : Option String
  tool_calls : Option (List OAToolCall)
deriving Repr

structure OAChoice where
  message : OAMessage
  finish_reason : Option String
deriving Repr

structure OAResponse where
  choices : List OAChoice
deriving Repr

/-- Anthropic-dialect output content block. -/
inductive ContentBlockOut where
  | text (t : String)
  | tool_use (id name : String) (input : Json)
deriving Repr

structure AnthropicNormalResponse where
  content : List ContentBlockOut
  stop_reason : Option String
deriving Repr

/-- `JSON.parse` (abstract): `none` models a thrown `SyntaxError`. -/
def ParseJson := String → Option Json

/-- The `for (const toolCall of message.tool_calls)` loop of
`convertNormalResponse` (lines 406-413): each call becomes a `tool_use`
block with `JSON.parse`d input; the first parse failure throws
(`.error ()`). -/
def parseToolBlocks (pj : ParseJson) : List OAToolCall → Except Unit (List ContentBlockOut)
  | [] => .ok []
  | tc :: rest =>
    match pj tc.fargs with
    | none => .error ()
    | some j =>
      match parseToolBlocks pj rest with
      | .ok bs => .ok (.tool_use tc.id tc.fname j :: bs)
      | .error e => .error e

/-- `convertNormalResponse` (lines 384-436), with respect to a JSON parser
`pj`.  `.error ()` models the uncaught exception thrown by
`JSON.parse(toolCall.function.arguments)` on malformed arguments
(line 411); the translated body is produced otherwise.  Only the first
choice is read; with no choices the response keeps empty content and no
`stop_reason`. -/
def convertNormalResponse (pj : ParseJson) (r : OAResponse) :
    Except Unit AnthropicNormalResponse :=
  match r.choices with
  | [] => .ok { content := [], stop_reason := none }
  | choice :: _ =>
    let textBlocks : List ContentBlockOut :=
      if truthyStr choice.message.content then
        [.text (choice.message.content.getD "")]
      else []
    match choice.message.tool_calls with
    | some tcs =>
      match parseToolBlocks pj tcs with
      | .ok blocks => .ok { content := textBlocks ++ blocks, stop_reason := some "tool_use" }
      | .error e => .error e
    | none =>
      .ok { content := textBlocks,
            stop_reason :=
              some (if choice.finish_reason == some "length" then "max_tokens" else "end_turn") }

/-! ### The streaming re-encoder
(`convertStreamResponse` + `processProviderStream`,
`anthropicHandlers.ts:441-748`)

The upstream byte stream is modelled as a list of decoded text chunks
(`TextDecoder` with `stream: true` makes byte-boundary splits equivalent
to character-boundary splits for well-formed UTF-8).  Outbound SSE events
are modelled structurally by `AEvent`; the source's SSE stringification of
an event is injective on the fields recorded here. -/

/-- Payload of an outbound `content_block_start`. -/
inductive BlockStart where
  | text
  | tool_use (id name : String)
deriving Repr, DecidableEq

/-- Payload of an outbound `content_block_delta`. -/
inductive DeltaBody where
  | text_delta (t : String)
  | input_json_delta (payload : String)
deriving Repr, DecidableEq

/-- Outbound Anthropic-framing stream event. -/
inductive AEvent where
  | message_start
  | content_block_start (index : Nat) (block : BlockStart)
  | content_block_delta (index : Nat) (delta : DeltaBody)
  | content_block_stop (index : Nat)
  | message_stop
deriving Repr, DecidableEq

/-- One upstream tool-call delta (`delta.tool_calls[i]`):
`index`, `id`, `function?.name`, `function?.arguments`, each possibly
absent. -/
structure ToolCallDelta where
  index : Option Nat
  id : Option String
  fname : Option String
  fargs : Option String
deriving Repr

/-- `choices[0]` of one parsed upstream chunk: `delta.content`,
`delta.tool_calls` and `finish_reason`, each possibly absent. -/
structure ChunkChoice where
  content : Option String
  tool_calls : Option (List ToolCallDelta)
  finish_reason : Option String
deriving Repr

/-- One parsed upstream SSE chunk. -/
structure OAChunk where
  choices : List ChunkChoice
deriving Repr

/-- `JSON.parse` of an upstream chunk line plus the field reads performed
by the stream callback, abstract; `none` models a parse error or a shape
for which a field read throws (both are caught and make the callback
return `null` before mutating any state). -/
def ParseChunk := String → Option OAChunk

/-- `JSON.stringify` (abstract), used to re-serialize parsed tool
arguments into the `input_json_delta` payload. -/
def StringifyJson := Json → String

/-- One entry of `toolCallsBuffer` (`{ id?: string; name?: string;
arguments?: string }`). -/
structure BufEntry where
  id : Option String
  name : Option String
  args : Option String
deriving Repr, DecidableEq

/-- The empty buffer entry created by `toolCallsBuffer.set(index, {})`. -/
def BufEntry.empty : BufEntry := ⟨none, none, none⟩

/-- `toolCallsBuffer` as an association list keyed by the upstream
positional index. -/
def ToolBuf := List (Nat × BufEntry)

def bufGet (tb : ToolBuf) (i : Nat) : Option BufEntry :=
  match tb with
  | [] => none
  | (k, e) :: rest => if k == i then some e else bufGet rest i

def bufSet (tb : ToolBuf) (i : Nat) (e : BufEntry) : ToolBuf :=
  match tb with
  | [] => [(i, e)]
  | (k, e') :: rest => if k == i then (i, e) :: rest else (k, e') :: bufSet rest i e

def bufDel (tb : ToolBuf) (i : Nat) : ToolBuf :=
  match tb with
  | [] => []
  | (k, e') :: rest => if k == i then bufDel rest i else (k, e') :: bufDel rest i

/-- The three field updates applied to a buffered call by one tool-call
delta (lines 499-507): `id` and `name` are overwritten when the incoming
field is truthy; `arguments` is *appended* (`(bufferedCall.arguments ||
'') + toolCall.function.arguments`), never overwritten. -/
def updateEntry (e : BufEntry) (tc : ToolCallDelta) : BufEntry :=
  let e1 := if truthyStr tc.id then { e with id := tc.id } else e
  let e2 := if truthyStr tc.fname then { e1 with name := tc.fname } else e1
  if truthyStr tc.fargs then
    { e2 with args := some (e2.args.getD "" ++ tc.fargs.getD "") }
  else e2

section StreamMachine

variable (pc : ParseChunk) (pj : ParseJson) (sf : StringifyJson)

/-- Processing of a single `toolCall` inside the
`for (const toolCall of delta.tool_calls)` loop (lines 489-553).
`textNow` is `currentTextIndex` at that point; returns the updated buffer,
the updated `currentToolIndex` and the events pushed.  The lifecycle
triple fires only when the updated entry has truthy `id`, `name` and
`arguments` and the accumulated arguments parse; firing deletes the
entry (`toolCallsBuffer.delete(index)`), a JSON parse failure leaves the
updated entry buffered and pushes nothing. -/
def stepToolCall (tb : ToolBuf) (textNow toolIdx : Nat) (tc : ToolCallDelta) :
    ToolBuf × Nat × List AEvent :=
  let index := tc.index.getD 0
  let e0 := (bufGet tb index).getD BufEntry.empty
  let e3 := updateEntry e0 tc
  let tb1 := bufSet tb index e3
  if truthyStr e3.id && truthyStr e3.name && truthyStr e3.args then
    match pj (e3.args.getD "") with
    | some args =>
      let blockIndex := if textNow > 0 then 1 + index else index
      (bufDel tb1 index, max toolIdx (index + 1),
        [.content_block_start blockIndex (.tool_use (e3.id.getD "") (e3.name.getD "")),
         .content_block_delta blockIndex (.input_json_delta (sf args)),
         .content_block_stop blockIndex])
    | none => (tb1, toolIdx, [])
  else (tb1, toolIdx, [])

/-- The tool-call loop folded over all deltas of one chunk, accumulating
pushed events in order. -/
def stepToolCalls (textNow : Nat) :
    ToolBuf × Nat × List AEvent → List ToolCallDelta → ToolBuf × Nat × List AEvent
  | acc, [] => acc
  | acc, tc :: rest =>
    let r := stepToolCall pj sf acc.1 textNow acc.2.1 tc
    stepToolCalls textNow (r.1, r.2.1, acc.2.2 ++ r.2.2) rest

/-- The text-content events of one chunk (lines 458-485): a
`content_block_start` for index 0 on the first text delta of the stream,
then the `text_delta`; nothing when `delta.content` is falsy. -/
def textEventsOf (choice : ChunkChoice) (textIndex : Nat) : List AEvent :=
  if truthyStr choice.content then
    (if textIndex == 0 then [AEvent.content_block_start 0 .text] else []) ++
    [AEvent.content_block_delta 0 (.text_delta (choice.content.getD ""))]
  else []

/-- `currentTextIndex` after the text-content step (line 484). -/
def textIndexAfter (choice : ChunkChoice) (textIndex : Nat) : Nat :=
  if truthyStr choice.content then 1 else textIndex

/-- The tool-call step of one chunk (lines 488-554): fold the deltas when
`delta.tool_calls` is present. -/
def toolFold (choice : ChunkChoice) (currentTextIndex : Nat) (tb : ToolBuf)
    (toolIndex : Nat) : ToolBuf × Nat × List AEvent :=
  match choice.tool_calls with
  | some tcs => stepToolCalls pj sf currentTextIndex (tb, toolIndex, []) tcs
  | none => (tb, toolIndex, [])

/-- The finish-signal events of one chunk (lines 557-567). -/
def finishEventsOf (choice : ChunkChoice) (currentTextIndex : Nat) : List AEvent :=
  if truthyStr choice.finish_reason && currentTextIndex > 0 then
    [AEvent.content_block_stop 0]
  else []

/-- The `processLine` callback built by `convertStreamResponse`
(lines 444-578).  Models one invocation on `jsonStr` with the given
`textIndex`/`toolIndex` and the captured `toolCallsBuffer`; returns
`none` (the callback's `null`) on parse failure or missing/empty
`choices`, otherwise the pushed events and the updated indices, plus the
updated buffer in either case. -/
def convertStreamLine (tb : ToolBuf) (jsonStr : String) (textIndex toolIndex : Nat) :
    Option (List AEvent × Nat × Nat) × ToolBuf :=
  match pc jsonStr with
  | none => (none, tb)
  | some chunk =>
    match chunk.choices with
    | [] => (none, tb)
    | choice :: _ =>
      let currentTextIndex := textIndexAfter choice textIndex
      let r := toolFold pj sf choice currentTextIndex tb toolIndex
      (some (textEventsOf choice textIndex ++ r.2.2 ++ finishEventsOf choice currentTextIndex,
        currentTextIndex, r.2.1), r.1)

/-- The per-stream mutable state of `processProviderStream` other than the
line buffer: the captured `toolCallsBuffer`, `toolUseBlockIndex` and
`hasStartedContent`. -/
structure InnerState where
  toolBuf : ToolBuf
  toolUseBlockIndex : Nat
  hasStartedContent : Bool

/-- Whitespace for JavaScript `String.trim`. -/
def isJsWs (c : Char) : Bool :=
  c == ' ' || c == '\t' || c == '\n' || c == '\r' || c == '\x0b' || c == '\x0c'

/-- JavaScript `String.trim` on a character list. -/
def jsTrim (l : List Char) : List Char :=
  ((l.dropWhile isJsWs).reverse.dropWhile isJsWs).reverse

/-- `chunk.split('\n')` followed by `buffer = lines.pop() || ''`
(lines 640-643): the complete lines (before each newline) and the
trailing incomplete line. -/
def splitChunk : List Char → List (List Char) × List Char
  | [] => ([], [])
  | c :: rest =>
    let r := splitChunk rest
    if c == '\n' then ([] :: r.1, r.2)
    else
      match r.1 with
      | l :: ls' => ((c :: l) :: ls', r.2)
      | [] => ([], c :: r.2)

/-- Folding one callback result into the inner state (lines 667-677):
a `null` result leaves the indices alone (the buffer may still have been
mutated); otherwise `hasStartedContent` latches on `textBlockIndex > 0`
and `toolUseBlockIndex` is overwritten. -/
def lineStepState (is : InnerState) (res : Option (List AEvent × Nat × Nat) × ToolBuf) :
    InnerState × List AEvent :=
  match res.1 with
  | none => ({ is with toolBuf := res.2 }, [])
  | some r =>
    ({ toolBuf := res.2,
       toolUseBlockIndex := r.2.2,
       hasStartedContent := is.hasStartedContent || r.2.1 > 0 }, r.1)

/-- Processing of one complete line of the upstream stream
(lines 645-678): skip blank or non-`data: ` lines, handle the `[DONE]`
sentinel (which emits a `content_block_stop` for index 0 whenever
`hasStartedContent`, without clearing it), skip empty payloads, otherwise
run the stream callback and fold its result into the state. -/
def processFullLine (is : InnerState) (line : List Char) : InnerState × List AEvent :=
  if jsTrim line == [] then (is, [])
  else if !(line.take 6 == "data: ".data) then (is, [])
  else
    let jsonStr := jsTrim (line.drop 6)
    if jsonStr == "[DONE]".data then
      (is, if is.hasStartedContent then [AEvent.content_block_stop 0] else [])
    else if jsonStr == [] then (is, [])
    else
      lineStepState is (convertStreamLine pc pj sf is.toolBuf (String.mk jsonStr)
        (if is.hasStartedContent then 1 else 0) is.toolUseBlockIndex)

def foldLines (is : InnerState) : List (List Char) → InnerState × List AEvent
  | [] => (is, [])
  | l :: ls =>
    let r1 := processFullLine pc pj sf is l
    let r2 := foldLines r1.1 ls
    (r2.1, r1.2 ++ r2.2)

/-- Full per-stream state: inner state plus the line buffer. -/
structure OuterState where
  inner : InnerState
  lineBuffer : List Char

/-- One iteration of the read loop (lines 635-679): prepend the buffered
partial line, split into lines, keep the trailing partial line buffered,
process the complete lines. -/
def processChunk (st : OuterState) (chunk : List Char) : OuterState × List AEvent :=
  let sp := splitChunk (st.lineBuffer ++ chunk)
  let r := foldLines pc pj sf st.inner sp.1
  (⟨r.1, sp.2⟩, r.2)

def runChunks (st : OuterState) : List (List Char) → OuterState × List AEvent
  | [] => (st, [])
  | c :: cs =>
    let r1 := processChunk pc pj sf st c
    let r2 := runChunks r1.1 cs
    (r2.1, r1.2 ++ r2.2)

/-- Folding one callback result into the outer state during the final
flush (lines 689-698 and 704-713): like `lineStepState` except that the
source does not update `toolUseBlockIndex` here. -/
def flushStepState (st : OuterState) (res : Option (List AEvent × Nat × Nat) × ToolBuf) :
    OuterState × List AEvent :=
  match res.1 with
  | none => ({ st with inner.toolBuf := res.2 }, [])
  | some r =>
    ({ st with
        inner.toolBuf := res.2,
        inner.hasStartedContent := st.inner.hasStartedContent || r.2.1 > 0 }, r.1)

/-- The `finally` block's flush of the remaining buffer (lines 681-718):
a buffer whose trimmed form starts with `data: ` is processed as a line
payload (sliced from the *untrimmed* buffer, as in the source); otherwise
the trimmed buffer is processed directly when it parses as JSON. -/
def finalFlush (st : OuterState) : OuterState × List AEvent :=
  let b := st.lineBuffer
  if jsTrim b == [] then (st, [])
  else if (jsTrim b).take 6 == "data: ".data then
    let finalJsonStr := jsTrim (b.drop 6)
    if finalJsonStr == [] || finalJsonStr == "[DONE]".data then (st, [])
    else
      flushStepState st (convertStreamLine pc pj sf st.inner.toolBuf (String.mk finalJsonStr)
        (if st.inner.hasStartedContent then 1 else 0) st.inner.toolUseBlockIndex)
  else
    if (pj (String.mk (jsTrim b))).isSome then
      flushStepState st (convertStreamLine pc pj sf st.inner.toolBuf (String.mk (jsTrim b))
        (if st.inner.hasStartedContent then 1 else 0) st.inner.toolUseBlockIndex)
    else (st, [])

/-- The whole streaming re-encoding of one upstream stream delivered as
the given chunks (`processProviderStream`, lines 610-748, with the
`convertStreamResponse` callback): `message_start` first, the read loop,
the final-buffer flush, the safety-net `content_block_stop` for index 0
whenever a text block was ever opened, and `message_stop` last. -/
def runStream (chunks : List (List Char)) : List AEvent :=
  let r1 := runChunks pc pj sf ⟨⟨[], 0, false⟩, []⟩ chunks
  let r2 := finalFlush pc pj sf r1.1
  AEvent.message_start ::
    (r1.2 ++ r2.2 ++
      (if (r2.1).inner.hasStartedContent then [AEvent.content_block_stop 0] else []) ++
      [AEvent.message_stop])

end StreamMachine

/-! ### Concrete parser instances and example streams

Closed counterexamples and witnesses need concrete instances of the
abstract `JSON.parse`/`JSON.stringify` parameters.  The demo instances
below map exactly the concrete upstream payload strings used by the
examples, consistently with what `JSON.parse` produces on them. -/

/-- `{"choices":[{"delta":{"content":"hi"},"finish_reason":"stop"}]}` -/
def chunkTextFinish : String :=
  "\x7b\"choices\":[\x7b\"delta\":\x7b\"content\":\"hi\"\x7d,\"finish_reason\":\"stop\"\x7d]\x7d"

/-- `{"choices":[{"delta":{"content":"hi"}}]}` -/
def chunkTextOnly : String :=
  "\x7b\"choices\":[\x7b\"delta\":\x7b\"content\":\"hi\"\x7d\x7d]\x7d"

/-- A chunk delivering a complete tool call at position 0 in one delta:
`{"choices":[{"delta":{"tool_calls":[{"index":0,"id":"call_1","function":{"name":"lookup","arguments":"{}"}}]}}]}` -/
def chunkToolComplete : String :=
  "\x7b\"choices\":[\x7b\"delta\":\x7b\"tool_calls\":[\x7b\"index\":0,\"id\":\"call_1\",\"function\":\x7b\"name\":\"lookup\",\"arguments\":\"\x7b\x7d\"\x7d\x7d]\x7d\x7d]\x7d"

/-- Incremental tool-call chunks of the four-fragment scenario:
id only, name only, first half of the arguments, second half. -/
def chunkToolId : String :=
  "\x7b\"choices\":[\x7b\"delta\":\x7b\"tool_calls\":[\x7b\"index\":0,\"id\":\"call_2\"\x7d]\x7d\x7d]\x7d"

def chunkToolName : String :=
  "\x7b\"choices\":[\x7b\"delta\":\x7b\"tool_calls\":[\x7b\"index\":0,\"function\":\x7b\"name\":\"add\"\x7d\x7d]\x7d\x7d]\x7d"

def chunkToolArgsA : String :=
  "\x7b\"choices\":[\x7b\"delta\":\x7b\"tool_calls\":[\x7b\"index\":0,\"function\":\x7b\"arguments\":\"\x7b\\\"a\\\":\"\x7d\x7d]\x7d\x7d]\x7d"

def chunkToolArgsB : String :=
  "\x7b\"choices\":[\x7b\"delta\":\x7b\"tool_calls\":[\x7b\"index\":0,\"function\":\x7b\"arguments\":\"1\x7d\"\x7d\x7d]\x7d\x7d]\x7d"

def demoParseChunk : ParseChunk := fun s =>
  if s == chunkTextFinish then some ⟨[⟨some "hi", none, some "stop"⟩]⟩
  else if s == chunkTextOnly then some ⟨[⟨some "hi", none, none⟩]⟩
  else if s == chunkToolComplete then
    some ⟨[⟨none, some [⟨some 0, some "call_1", some "lookup", some "\x7b\x7d"⟩], none⟩]⟩
  else if s == chunkToolId then
    some ⟨[⟨none, some [⟨some 0, some "call_2", none, none⟩], none⟩]⟩
  else if s == chunkToolName then
    some ⟨[⟨none, some [⟨some 0, none, some "add", none⟩], none⟩]⟩
  else if s == chunkToolArgsA then
    some ⟨[⟨none, some [⟨some 0, none, none, some "\x7b\"a\":"⟩], none⟩]⟩
  else if s == chunkToolArgsB then
    some ⟨[⟨none, some [⟨some 0, none, none, some "1\x7d"⟩], none⟩]⟩
  else none

def demoParseJson : ParseJson := fun s =>
  if s == "\x7b\x7d" then some (.obj [])
  else if s == "\x7b\"a\":1\x7d" then some (.obj [("a", .num 1)])
  else none

def demoStringify : StringifyJson := fun j =>
  match j with
  | .obj [] => "\x7b\x7d"
  | .obj [("a", .num 1)] => "\x7b\"a\":1\x7d"
  | _ => "null"

/-- One upstream SSE line carrying the given payload. -/
def sseLine (payload : String) : List Char := ("data: " ++ payload ++ "\n").data

/-- Concatenation of all chunks: the logical upstream character stream. -/
def listJoin : List (List Char) → List Char
  | [] => []
  | c :: cs => c ++ listJoin cs

/-- C6 counterexample schema: `{"anyOf":[{"title":null}]}` — the `anyOf`
value is an array, which the cleaner's generic branch skips. -/
def exC6 : Json := .obj [("anyOf", .arr [.obj [("title", .null)]])]

/-! ### Event classification (spec-side, for stating stream properties) -/

def isTextStart : AEvent → Bool
  | .content_block_start _ .text => true
  | _ => false

def isToolStart : AEvent → Bool
  | .content_block_start _ (.tool_use _ _) => true
  | _ => false

def isStartAt (i : Nat) : AEvent → Bool
  | .content_block_start j _ => j == i
  | _ => false

def isStopAt (i : Nat) : AEvent → Bool
  | .content_block_stop j => j == i
  | _ => false

def isDeltaAt (i : Nat) : AEvent → Bool
  | .content_block_delta j _ => j == i
  | _ => false

def isMsgStart : AEvent → Bool
  | .message_start => true
  | _ => false

def isMsgStop : AEvent → Bool
  | .message_stop => true
  | _ => false

/-- A tool-block event: a `tool_use` `content_block_start` or an
`input_json_delta`. -/
def isToolEvent : AEvent → Bool
  | .content_block_start _ (.tool_use _ _) => true
  | .content_block_delta _ (.input_json_delta _) => true
  | _ => false

def isTextDelta : AEvent → Bool
  | .content_block_delta _ (.text_delta _) => true
  | _ => false

/-- A text `content_block_start` at an index other than 0 (the code never
emits one; this predicate states it). -/
def isBadTextStart : AEvent → Bool
  | .content_block_start i .text => i != 0
  | _ => false

/-- Number of events in `evs` satisfying `p`. -/
def countP (p : AEvent → Bool) (evs : List AEvent) : Nat := (evs.filter p).length

/-- Tool lifecycles are adjacent triples: wherever a tool-use
`content_block_start` occurs, the next two events are the matching
`input_json_delta` and `content_block_stop` at the same index. -/
def ToolAdj (evs : List AEvent) : Prop :=
  ∀ l₁ i id name l₂,
    evs = l₁ ++ AEvent.content_block_start i (.tool_use id name) :: l₂ →
    ∃ s l₃, l₂ = AEvent.content_block_delta i (.input_json_delta s) ::
      AEvent.content_block_stop i :: l₃

/-- Every `text_delta` is at index 0 and is preceded by a text
`content_block_start`, counting `pre` text starts already emitted before
`evs`. -/
def TextOkFrom (pre : Nat) (evs : List AEvent) : Prop :=
  ∀ l₁ i d l₂,
    evs = l₁ ++ AEvent.content_block_delta i (.text_delta d) :: l₂ →
    i = 0 ∧ 1 ≤ pre + countP isTextStart l₁

/-- Lists made of consecutive tool-lifecycle triples. -/
inductive Triples : List AEvent → Prop where
  | nil : Triples []
  | cons (i : Nat) (id name s : String) (rest : List AEvent) (h : Triples rest) :
      Triples (AEvent.content_block_start i (.tool_use id name)
        :: AEvent.content_block_delta i (.input_json_delta s)
        :: AEvent.content_block_stop i :: rest)

/-- The inductive stream invariant maintained while chunks are processed,
relating `hasStartedContent` to the events emitted so far: exactly one
text `content_block_start` has been emitted iff `hasStartedContent`, it
is at index 0 and precedes every `text_delta` (all at index 0), tool
lifecycles are adjacent triples, and no message boundary events are
emitted by chunk processing. -/
def StreamInv (h : Bool) (evs : List AEvent) : Prop :=
  countP isTextStart evs = (if h then 1 else 0) ∧
  TextOkFrom 0 evs ∧
  ToolAdj evs ∧
  countP isMsgStart evs = 0 ∧
  countP isMsgStop evs = 0 ∧
  countP isBadTextStart evs = 0

/-! ## Lemmas about the schema cleaner -/

theorem isDigitChar_natKeyAux : ∀ (n : Nat) (acc : List Char),
    (∀ c ∈ acc, isDigitChar c = true) → ∀ c ∈ natKeyAux n acc, isDigitChar c = true := by
  intro n
  induction n using Nat.strong_induction_on with
  | _ n ih =>
    intro acc hacc c hc
    have hdig : isDigitChar (Char.ofNat (48 + n % 10)) = true := by
      obtain ⟨m, hm, hmlt⟩ : ∃ m, n % 10 = m ∧ m < 10 :=
        ⟨n % 10, rfl, Nat.mod_lt _ (by decide)⟩
      rw [hm]
      interval_cases m <;> decide
    rw [natKeyAux] at hc
    by_cases h : n < 10
    · simp only [h, dite_true] at hc
      rcases List.mem_cons.mp hc with h1 | h1
      · exact h1 ▸ hdig
      · exact hacc c h1
    · simp only [h, dite_false] at hc
      exact ih (n / 10) (Nat.div_lt_self (by omega) (by omega)) _
        (by
          intro d hd
          rcases List.mem_cons.mp hd with h1 | h1
          · exact h1 ▸ hdig
          · exact hacc d h1) c hc

/-- A numeric-index key never equals a string containing a non-digit. -/
theorem natKey_ne (n : Nat) (s : String) (c : Char)
    (hc : c ∈ s.data) (hd : isDigitChar c = false) : natKey n ≠ s := by
  intro h
  have hall := isDigitChar_natKeyAux n [] (by intro d hd'; cases hd')
  have hsd : s.data = natKeyAux n [] := by
    rw [← h]; rfl
  rw [hsd] at hc
  rw [hall c hc] at hd
  cases hd

theorem natKey_not_banned (i : Nat) : bannedKey (natKey i) = false := by
  have h1 := natKey_ne i "$schema" '$' (by decide) (by decide)
  have h2 := natKey_ne i "additionalProperties" 'a' (by decide) (by decide)
  have h3 := natKey_ne i "title" 't' (by decide) (by decide)
  have h4 := natKey_ne i "examples" 'e' (by decide) (by decide)
  simp [bannedKey, h1, h2, h3, h4]

theorem natKey_ne_format (i : Nat) : (natKey i == "format") = false := by
  simp [natKey_ne i "format" 'f' (by decide) (by decide)]

theorem natKey_ne_properties (i : Nat) : (natKey i == "properties") = false := by
  simp [natKey_ne i "properties" 'p' (by decide) (by decide)]

theorem natKey_ne_items (i : Nat) : (natKey i == "items") = false := by
  simp [natKey_ne i "items" 'i' (by decide) (by decide)]

/-- Whether a value is the string `"string"` — the observation `typeIsString`
makes of a `type` entry. -/
def isStrString : Json → Bool
  | .str s => s == "string"
  | _ => false

theorem isStrString_clean (v : Json) : isStrString (cleanJsonSchema v) = isStrString v := by
  cases v <;> rfl

theorem isObjTypeof_clean (v : Json) (h : isObjTypeof v = true) :
    isObjTypeof (cleanJsonSchema v) = true := by
  cases v <;> first | rfl | cases h

theorem isJsArray_clean (v : Json) : isJsArray (cleanJsonSchema v) = false := by
  cases v <;> rfl

theorem typeIsString_eq_lookup (fs : List (String × Json)) :
    typeIsString fs = (match fs.lookup "type" with
      | some v => isStrString v
      | none => false) := by
  unfold typeIsString
  cases h : fs.lookup "type" with
  | none => rfl
  | some v => cases v <;> rfl

theorem bannedKey_ne_type {k : String} (h : bannedKey k = true) : ("type" == k) = false := by
  simp only [bannedKey, Bool.or_eq_true, beq_iff_eq] at h
  rcases h with ((h | h) | h) | h <;> simp [h]

/-- Cleaning fields never changes what `cleaned.type === 'string'`
evaluates to: the `type` entry is never deleted and its value keeps its
string-status. -/
theorem typeIsString_cleanFields (ts : Bool) (fs : List (String × Json)) :
    typeIsString (cleanFields ts fs) = typeIsString fs := by
  induction fs with
  | nil => rfl
  | cons kv rest ih =>
    obtain ⟨k, v⟩ := kv
    rw [typeIsString_eq_lookup, typeIsString_eq_lookup] at *
    by_cases hb : bannedKey k = true
    · rw [cleanFields, if_pos hb]
      rw [List.lookup, bannedKey_ne_type hb]
      exact ih
    · by_cases hf : (k == "format" && ts) = true
      · rw [cleanFields, if_neg (by simp [hb]), if_pos hf]
        have hk : k = "format" := by
          simp only [Bool.and_eq_true, beq_iff_eq] at hf
          exact hf.1
        rw [List.lookup]
        subst hk
        simp only [show (("type" : String) == "format") = false by decide]
        exact ih
      · by_cases hp : ((k == "properties" || k == "items") && isObjTypeof v) = true
        · rw [cleanFields, if_neg (by simp [hb]), if_neg (by simp [hf]), if_pos hp]
          rw [List.lookup, List.lookup]
          cases hkt : (("type" : String) == k) with
          | false => exact ih
          | true => simp [isStrString_clean]
        · by_cases hg : (isObjTypeof v && !isJsArray v) = true
          · rw [cleanFields, if_neg (by simp [hb]), if_neg (by simp [hf]),
              if_neg (by simp [hp]), if_pos hg]
            rw [List.lookup, List.lookup]
            cases hkt : (("type" : String) == k) with
            | false => exact ih
            | true => simp [isStrString_clean]
          · rw [cleanFields, if_neg (by simp [hb]), if_neg (by simp [hf]),
              if_neg (by simp [hp]), if_neg (by simp [hg])]
            rw [List.lookup, List.lookup]
            cases hkt : (("type" : String) == k) with
            | false => exact ih
            | true => rfl

mutual

theorem cleanJsonSchema_idem : ∀ j : Json,
    cleanJsonSchema (cleanJsonSchema j) = cleanJsonSchema j
  | .null => rfl
  | .bool _ => rfl
  | .num _ => rfl
  | .str _ => rfl
  | .obj fs => by
    rw [show cleanJsonSchema (.obj fs) = .obj (cleanFields (typeIsString fs) fs) from rfl]
    rw [show ∀ gs, cleanJsonSchema (.obj gs) = .obj (cleanFields (typeIsString gs) gs)
        from fun gs => rfl]
    rw [typeIsString_cleanFields]
    rw [cleanFields_idem (typeIsString fs) fs]
  | .arr xs => by
    rw [show cleanJsonSchema (.arr xs) = .obj (spreadClean 0 xs) from rfl]
    rw [show ∀ gs, cleanJsonSchema (.obj gs) = .obj (cleanFields (typeIsString gs) gs)
        from fun gs => rfl]
    rw [cleanFields_spreadClean (typeIsString (spreadClean 0 xs)) 0 xs]

theorem cleanFields_idem : ∀ (ts : Bool) (fs : List (String × Json)),
    cleanFields ts (cleanFields ts fs) = cleanFields ts fs
  | _, [] => rfl
  | ts, (k, v) :: rest => by
    by_cases hb : bannedKey k = true
    · rw [show cleanFields ts ((k, v) :: rest) = cleanFields ts rest from by
        rw [cleanFields, if_pos hb]]
      exact cleanFields_idem ts rest
    · by_cases hf : (k == "format" && ts) = true
      · rw [show cleanFields ts ((k, v) :: rest) = cleanFields ts rest from by
          rw [cleanFields, if_neg hb, if_pos hf]]
        exact cleanFields_idem ts rest
      · by_cases hp : ((k == "properties" || k == "items") && isObjTypeof v) = true
        · rw [show cleanFields ts ((k, v) :: rest)
              = (k, cleanJsonSchema v) :: cleanFields ts rest from by
            rw [cleanFields, if_neg hb, if_neg hf, if_pos hp]]
          have hp' : ((k == "properties" || k == "items") && isObjTypeof (cleanJsonSchema v))
              = true := by
            simp only [Bool.and_eq_true] at hp ⊢
            exact ⟨hp.1, isObjTypeof_clean v hp.2⟩
          rw [cleanFields, if_neg hb, if_neg hf, if_pos hp']
          rw [cleanJsonSchema_idem v, cleanFields_idem ts rest]
        · by_cases hg : (isObjTypeof v && !isJsArray v) = true
          · rw [show cleanFields ts ((k, v) :: rest)
                = (k, cleanJsonSchema v) :: cleanFields ts rest from by
              rw [cleanFields, if_neg hb, if_neg hf, if_neg hp, if_pos hg]]
            have hknp : ((k == "properties" || k == "items")
                && isObjTypeof (cleanJsonSchema v)) = false := by
              simp only [Bool.and_eq_true] at hg
              have : (k == "properties" || k == "items") = false := by
                cases h : (k == "properties" || k == "items") with
                | false => rfl
                | true => exact absurd (by simp [h, hg.1] : _ = true) hp
              simp [this]
            have hg' : (isObjTypeof (cleanJsonSchema v) && !isJsArray (cleanJsonSchema v))
                = true := by
              simp only [Bool.and_eq_true] at hg ⊢
              exact ⟨isObjTypeof_clean v hg.1, by simp [isJsArray_clean]⟩
            rw [cleanFields, if_neg hb, if_neg hf, if_neg (by simp [hknp]), if_pos hg']
            rw [cleanJsonSchema_idem v, cleanFields_idem ts rest]
          · rw [show cleanFields ts ((k, v) :: rest) = (k, v) :: cleanFields ts rest from by
              rw [cleanFields, if_neg hb, if_neg hf, if_neg hp, if_neg hg]]
            rw [cleanFields, if_neg hb, if_neg hf, if_neg hp, if_neg hg]
            rw [cleanFields_idem ts rest]

theorem cleanFields_spreadClean : ∀ (ts : Bool) (i : Nat) (xs : List Json),
    cleanFields ts (spreadClean i xs) = spreadClean i xs
  | _, _, [] => rfl
  | ts, i, v :: rest => by
    rw [show spreadClean i (v :: rest)
        = (natKey i, if isObjTypeof v && !isJsArray v then cleanJsonSchema v else v)
          :: spreadClean (i + 1) rest from rfl]
    have hb : ¬ bannedKey (natKey i) = true := by simp [natKey_not_banned]
    have hf : ¬ ((natKey i == "format") && ts) = true := by simp [natKey_ne_format]
    have hz : (natKey i == "properties" || natKey i == "items") = false := by
      simp [natKey_ne_properties, natKey_ne_items]
    by_cases hg : (isObjTypeof v && !isJsArray v) = true
    · rw [if_pos hg]
      have hg' : (isObjTypeof (cleanJsonSchema v) && !isJsArray (cleanJsonSchema v))
          = true := by
        simp only [Bool.and_eq_true] at hg ⊢
        exact ⟨isObjTypeof_clean v hg.1, by simp [isJsArray_clean]⟩
      rw [cleanFields, if_neg hb, if_neg hf, if_neg (by simp [hz]), if_pos hg']
      rw [cleanJsonSchema_idem v, cleanFields_spreadClean ts (i + 1) rest]
    · rw [if_neg hg]
      rw [cleanFields, if_neg hb, if_neg hf, if_neg (by simp [hz]), if_neg hg]
      rw [cleanFields_spreadClean ts (i + 1) rest]

end

theorem cleanFields_keys_not_banned (ts : Bool) (fs : List (String × Json)) :
    ((cleanFields ts fs).all fun kv => !bannedKey kv.1) = true := by
  induction fs with
  | nil => rfl
  | cons kv rest ih =>
    obtain ⟨k, v⟩ := kv
    by_cases hb : bannedKey k = true
    · rw [cleanFields, if_pos hb]; exact ih
    · have hb' : bannedKey k = false := by
        cases h : bannedKey k with
        | false => rfl
        | true => exact absurd h hb
      by_cases hf : (k == "format" && ts) = true
      · rw [cleanFields, if_neg hb, if_pos hf]; exact ih
      · by_cases hp : ((k == "properties" || k == "items") && isObjTypeof v) = true
        · rw [cleanFields, if_neg hb, if_neg hf, if_pos hp]
          simp [List.all_cons, hb', ih]
        · by_cases hg : (isObjTypeof v && !isJsArray v) = true
          · rw [cleanFields, if_neg hb, if_neg hf, if_neg hp, if_pos hg]
            simp [List.all_cons, hb', ih]
          · rw [cleanFields, if_neg hb, if_neg hf, if_neg hp, if_neg hg]
            simp [List.all_cons, hb', ih]

theorem cleanFields_no_format (fs : List (String × Json)) :
    ((cleanFields true fs).all fun kv => kv.1 != "format") = true := by
  induction fs with
  | nil => rfl
  | cons kv rest ih =>
    obtain ⟨k, v⟩ := kv
    by_cases hb : bannedKey k = true
    · rw [cleanFields, if_pos hb]; exact ih
    · by_cases hk : (k == "format") = true
      · rw [cleanFields, if_neg hb, if_pos (by simp [hk])]; exact ih
      · have hk' : (k != "format") = true := by simp_all [bne]
        by_cases hp : ((k == "properties" || k == "items") && isObjTypeof v) = true
        · rw [cleanFields, if_neg hb, if_neg (by simp [hk]), if_pos hp]
          simp [List.all_cons, hk', ih]
        · by_cases hg : (isObjTypeof v && !isJsArray v) = true
          · rw [cleanFields, if_neg hb, if_neg (by simp [hk]), if_neg hp, if_pos hg]
            simp [List.all_cons, hk', ih]
          · rw [cleanFields, if_neg hb, if_neg (by simp [hk]), if_neg hp, if_neg hg]
            simp [List.all_cons, hk', ih]

theorem spreadClean_keys_not_banned (i : Nat) (xs : List Json) :
    ((spreadClean i xs).all fun kv => !bannedKey kv.1) = true := by
  induction xs generalizing i with
  | nil => rfl
  | cons v rest ih =>
    rw [spreadClean]
    simp [List.all_cons, natKey_not_banned, ih]

theorem spreadClean_no_format (i : Nat) (xs : List Json) :
    ((spreadClean i xs).all fun kv => kv.1 != "format") = true := by
  induction xs generalizing i with
  | nil => rfl
  | cons v rest ih =>
    rw [spreadClean, List.all_cons, ih (i + 1)]
    simp [bne, natKey_ne_format i]

mutual

theorem cleanedOk_clean : ∀ j : Json, cleanedOk (cleanJsonSchema j) = true
  | .null => rfl
  | .bool _ => rfl
  | .num _ => rfl
  | .str _ => rfl
  | .obj fs => by
    rw [show cleanJsonSchema (.obj fs) = .obj (cleanFields (typeIsString fs) fs) from rfl]
    rw [cleanedOk]
    rw [cleanFields_keys_not_banned, typeIsString_cleanFields,
      cleanedOkFields_cleanFields (typeIsString fs) fs]
    cases hts : typeIsString fs with
    | false => rfl
    | true =>
      rw [if_pos rfl, cleanFields_no_format fs]
      rfl
  | .arr xs => by
    rw [show cleanJsonSchema (.arr xs) = .obj (spreadClean 0 xs) from rfl]
    rw [cleanedOk]
    rw [spreadClean_keys_not_banned, spreadClean_no_format,
      cleanedOkFields_spreadClean 0 xs, ite_self]
    rfl

theorem cleanedOkFields_cleanFields : ∀ (ts : Bool) (fs : List (String × Json)),
    cleanedOkFields (cleanFields ts fs) = true
  | _, [] => rfl
  | ts, (k, v) :: rest => by
    by_cases hb : bannedKey k = true
    · rw [cleanFields, if_pos hb]; exact cleanedOkFields_cleanFields ts rest
    · by_cases hf : (k == "format" && ts) = true
      · rw [cleanFields, if_neg hb, if_pos hf]; exact cleanedOkFields_cleanFields ts rest
      · by_cases hp : ((k == "properties" || k == "items") && isObjTypeof v) = true
        · rw [cleanFields, if_neg hb, if_neg hf, if_pos hp]
          rw [cleanedOkFields, cleanedOk_clean v, cleanedOkFields_cleanFields ts rest]
          rfl
        · by_cases hg : (isObjTypeof v && !isJsArray v) = true
          · rw [cleanFields, if_neg hb, if_neg hf, if_neg hp, if_pos hg]
            rw [cleanedOkFields, cleanedOk_clean v, cleanedOkFields_cleanFields ts rest]
            rfl
          · rw [cleanFields, if_neg hb, if_neg hf, if_neg hp, if_neg hg]
            rw [cleanedOkFields, cleanedOkFields_cleanFields ts rest]
            have hv : cleanedOk v = true := by
              cases v with
              | obj gs => exact absurd (by rfl : (isObjTypeof (Json.obj gs)
                  && !isJsArray (Json.obj gs)) = true) hg
              | null => exact absurd (by rfl : (isObjTypeof Json.null
                  && !isJsArray Json.null) = true) hg
              | bool b => rfl
              | num n => rfl
              | str s => rfl
              | arr ys => rfl
            rw [hv]
            rfl

theorem cleanedOkFields_spreadClean : ∀ (i : Nat) (xs : List Json),
    cleanedOkFields (spreadClean i xs) = true
  | _, [] => rfl
  | i, v :: rest => by
    rw [spreadClean]
    by_cases hg : (isObjTypeof v && !isJsArray v) = true
    · rw [if_pos hg, cleanedOkFields, cleanedOk_clean v,
        cleanedOkFields_spreadClean (i + 1) rest]
      rfl
    · rw [if_neg hg, cleanedOkFields, cleanedOkFields_spreadClean (i + 1) rest]
      have hv : cleanedOk v = true := by
        cases v with
        | obj gs => exact absurd (by rfl : (isObjTypeof (Json.obj gs)
            && !isJsArray (Json.obj gs)) = true) hg
        | null => exact absurd (by rfl : (isObjTypeof Json.null
            && !isJsArray Json.null) = true) hg
        | bool b => rfl
        | num n => rfl
        | str s => rfl
        | arr ys => rfl
      rw [hv]
      rfl

end

theorem lookup_cleanFields_items (ts : Bool) (fs : List (String × Json)) (v : Json)
    (hv : fs.lookup "items" = some v) (ho : isObjTypeof v = true) :
    (cleanFields ts fs).lookup "items" = some (cleanJsonSchema v) := by
  induction fs with
  | nil => cases hv
  | cons kv rest ih =>
    obtain ⟨k, w⟩ := kv
    rw [List.lookup] at hv
    cases hk : (("items" : String) == k) with
    | true =>
      rw [hk] at hv
      have hkv : k = "items" := (beq_iff_eq.mp hk).symm
      have hwv : w = v := by cases hv; rfl
      subst hkv hwv
      rw [cleanFields, if_neg (by decide), if_neg (by simp),
        if_pos (by simp [ho])]
      rw [List.lookup]
      rfl
    | false =>
      rw [hk] at hv
      have tail : (cleanFields ts rest).lookup "items" = some (cleanJsonSchema v) := ih hv
      by_cases hb : bannedKey k = true
      · rw [cleanFields, if_pos hb]; exact tail
      · by_cases hf : (k == "format" && ts) = true
        · rw [cleanFields, if_neg hb, if_pos hf]; exact tail
        · by_cases hp : ((k == "properties" || k == "items") && isObjTypeof w) = true
          · rw [cleanFields, if_neg hb, if_neg hf, if_pos hp, List.lookup, hk]
            exact tail
          · by_cases hg : (isObjTypeof w && !isJsArray w) = true
            · rw [cleanFields, if_neg hb, if_neg hf, if_neg hp, if_pos hg, List.lookup, hk]
              exact tail
            · rw [cleanFields, if_neg hb, if_neg hf, if_neg hp, if_neg hg, List.lookup, hk]
              exact tail

theorem spreadClean_keys (xs : List Json) : ∀ i : Nat,
    (spreadClean i xs).map Prod.fst = (List.range xs.length).map (fun k => natKey (i + k)) := by
  induction xs with
  | nil => intro _; rfl
  | cons v rest ih =>
    intro i
    rw [spreadClean, List.map_cons, List.length_cons, List.range_succ_eq_map,
      List.map_cons, List.map_map, ih (i + 1)]
    congr 1
    have : (fun k => natKey (i + 1 + k)) = ((fun k => natKey (i + k)) ∘ Nat.succ) := by
      funext k
      show natKey (i + 1 + k) = natKey (i + Nat.succ k)
      congr 1
      omega
    rw [this]

/-! ## Claim C6 -/

/-- C6 counterexample: the claim asserts `cleanJsonSchema`'s result
contains none of the banned keys *at any depth*; but on
`{"anyOf":[{"title":null}]}` the cleaner returns its input unchanged
(the `anyOf` value is an array and arrays under generic keys are not
recursed into), so the result still contains `title` at depth. -/
theorem c6_counterexample :
    cleanJsonSchema exC6 = exC6 ∧ containsKeyDeep "title" (cleanJsonSchema exC6) = true :=
  ⟨rfl, rfl⟩

/-- C6 amended: `cleanJsonSchema` is idempotent (and, being modelled as a
pure function of its argument, non-mutating), and its result contains no
banned key — and no `format` key next to `type:"string"` — at any depth
reachable through object-valued fields; elements of array values under
keys other than `properties`/`items` are returned unchanged and may
retain banned keys. -/
theorem c6_clean_idempotent_and_cleaned (j : Json) :
    cleanJsonSchema (cleanJsonSchema j) = cleanJsonSchema j ∧
    cleanedOk (cleanJsonSchema j) = true :=
  ⟨cleanJsonSchema_idem j, cleanedOk_clean j⟩

/-! ## Claim C10 -/

/-- C10: if a schema object's `items` value is an array, the cleaned
object's `items` value is a plain object — the array spread keyed by the
decimal strings of its indices — and in particular no longer an array. -/
theorem c10_items_array_becomes_object (fs : List (String × Json)) (xs : List Json)
    (hv : fs.lookup "items" = some (.arr xs)) :
    ∃ gs, cleanJsonSchema (.obj fs) = .obj gs ∧
      gs.lookup "items" = some (.obj (spreadClean 0 xs)) ∧
      (∀ ys, Json.obj (spreadClean 0 xs) ≠ .arr ys) ∧
      (spreadClean 0 xs).map Prod.fst = (List.range xs.length).map (fun k => natKey k) := by
  refine ⟨cleanFields (typeIsString fs) fs, rfl, ?_, ?_, ?_⟩
  · exact lookup_cleanFields_items (typeIsString fs) fs (.arr xs) hv rfl
  · intro ys h
    cases h
  · rw [spreadClean_keys xs 0]
    congr 1
    funext k
    rw [Nat.zero_add]

theorem c10_witness :
    ([("items", Json.arr [Json.null])] : List (String × Json)).lookup "items"
        = some (.arr [.null]) ∧
    ∃ gs, cleanJsonSchema (.obj [("items", Json.arr [Json.null])]) = .obj gs ∧
      gs.lookup "items" = some (.obj (spreadClean 0 [Json.null])) ∧
      (∀ ys, Json.obj (spreadClean 0 [Json.null]) ≠ .arr ys) ∧
      (spreadClean 0 [Json.null]).map Prod.fst
        = (List.range [Json.null].length).map (fun k => natKey k) :=
  ⟨rfl, c10_items_array_becomes_object [("items", Json.arr [Json.null])] [Json.null] rfl⟩

/-! ## Claim C7 -/

theorem role_check_eq (r : Option String) :
    (!truthyStr r || (r != some "user" && r != some "assistant"))
      = !(r == some "user" || r == some "assistant") := by
  cases r with
  | none => rfl
  | some s =>
    by_cases hu : s = "user"
    · subst hu; rfl
    · by_cases ha : s = "assistant"
      · subst ha; rfl
      · by_cases he : s = ""
        · subst he; rfl
        · simp [truthyStr, hu, ha, he, bne]

theorem validateMessages_any (ms : List RawMessage) :
    (validateMessages ms).isSome =
      ms.any fun m =>
        !(m.role == some "user" || m.role == some "assistant") ||
        !(match m.content with | some j => jsTruthy j | none => false) := by
  induction ms with
  | nil => rfl
  | cons m rest ih =>
    rw [validateMessages, List.any_cons]
    by_cases h1 : (!truthyStr m.role || (m.role != some "user" && m.role != some "assistant"))
        = true
    · rw [if_pos h1, role_check_eq] at *
      rw [h1]
      rfl
    · have h1' : (!(m.role == some "user" || m.role == some "assistant")) = false := by
        rw [← role_check_eq]
        cases h : (!truthyStr m.role || (m.role != some "user" && m.role != some "assistant"))
        · rfl
        · exact absurd h h1
      rw [if_neg h1, h1']
      by_cases h2 : (!(match m.content with | some j => jsTruthy j | none => false)) = true
      · rw [if_pos (by
          cases hc : (match m.content with | some j => jsTruthy j | none => false) with
          | true => rw [hc] at h2; cases h2
          | false => simp), h2]
        rfl
      · have h2' : (match m.content with | some j => jsTruthy j | none => false) = true := by
          cases hc : (match m.content with | some j => jsTruthy j | none => false) with
          | true => rfl
          | false => exact absurd (by rw [hc]; rfl) h2
        rw [if_neg (by rw [h2']; simp), ih]
        cases h2'' : (!(match m.content with | some j => jsTruthy j | none => false)) with
        | false => rfl
        | true => exact absurd h2'' h2

theorem model_check_eq (o : Option String) :
    (!truthyStr o) = (o == none || o == some "") := by
  cases o with
  | none => rfl
  | some s => simp [truthyStr, bne]

/-- C7 counterexample: a body whose only deviation is an empty-string
`content` — not null, so the claim's condition reports no error, but the
validator's JavaScript truthiness check (`!message.content`) rejects it. -/
theorem c7_counterexample :
    validateRequest ⟨some "m", some 1, some (.arr [⟨some "user", some (.str "")⟩])⟩
      = some .missingContent ∧
    specValidationRejects ⟨some "m", some 1, some (.arr [⟨some "user", some (.str "")⟩])⟩
      = false :=
  ⟨rfl, rfl⟩

/-- C7 amended: validation errors exactly when model is empty/missing, or
`max_tokens` is missing or not greater than 0, or `messages` is missing,
not an array, or empty, or some message has a role outside
`{user, assistant}` or *falsy* content (missing, null, false, 0 or the
empty string). -/
theorem c7_validate_iff_amended (b : RawBody) :
    (validateRequest b).isSome = amendedValidationRejects b := by
  rw [validateRequest, amendedValidationRejects]
  by_cases hm : truthyStr b.model = true
  · rw [if_neg (by rw [hm]; simp)]
    have hm' : (b.model == none || b.model == some "") = false := by
      rw [← model_check_eq, hm]
      rfl
    rw [hm', Bool.false_or]
    by_cases ht : (match b.max_tokens with | some n => decide (0 < n) | none => false) = true
    · rw [if_neg (by rw [ht]; simp)]
      have ht' : (match b.max_tokens with | some n => decide (n ≤ 0) | none => true)
          = false := by
        cases hmt : b.max_tokens with
        | none => rw [hmt] at ht; cases ht
        | some n =>
          rw [hmt] at ht
          simp only [decide_eq_true_eq] at ht
          simp [decide_eq_false_iff_not]
          omega
      rw [ht', Bool.false_or]
      cases hms : b.messages with
      | none => rfl
      | some mf =>
        cases mf with
        | notArr t => rfl
        | arr ms =>
          cases ms with
          | nil => rfl
          | cons m rest =>
            rw [validateMessages_any]
            rfl
    · rw [if_pos (by
        cases h : (match b.max_tokens with | some n => decide (0 < n) | none => false) with
        | false => simp
        | true => exact absurd h ht)]
      have ht' : (match b.max_tokens with | some n => decide (n ≤ 0) | none => true)
          = true := by
        cases hmt : b.max_tokens with
        | none => rfl
        | some n =>
          rw [hmt] at ht
          simp only [decide_eq_true_eq] at ht ⊢
          omega
      rw [ht']
      simp
  · rw [if_pos (by
      cases h : truthyStr b.model with
      | false => simp
      | true => exact absurd h hm)]
    have hm' : (b.model == none || b.model == some "") = true := by
      rw [← model_check_eq]
      cases h : truthyStr b.model with
      | false => rfl
      | true => exact absurd h hm
    rw [hm']
    rfl

theorem c7_witness :
    (validateRequest ⟨some "m", some 5, some (.arr [⟨some "user", some (.str "hi")⟩])⟩).isSome
      = amendedValidationRejects
          ⟨some "m", some 5, some (.arr [⟨some "user", some (.str "hi")⟩])⟩ :=
  c7_validate_iff_amended _

/-! ## Claim C8 -/

/-- C8: a request whose model identifier contains no `#` separator is
rejected with a client-facing 4xx error before any upstream contact
(`forward` — the only outcome that contacts the upstream — is never
produced). -/
theorem c8_no_separator_rejected (b : RawBody) (s : String)
    (hm : b.model = some s) (hs : s.data.contains '#' = false) :
    ∃ t st, handleAnthropicMessagesRequest b = .reject t st ∧ 400 ≤ st ∧ st < 500 := by
  rw [handleAnthropicMessagesRequest]
  cases hv : validateRequest b with
  | some e => exact ⟨"invalid_request_error", 400, rfl, by omega, by omega⟩
  | none =>
    refine ⟨"model_not_found", 404, ?_, by omega, by omega⟩
    rw [hm]
    have hcond : (!truthyStr (some s) || !(((some s).getD "").data.contains '#')) = true := by
      have h0 : ((some s).getD "").data.contains '#' = false := hs
      rw [h0]
      simp
    rw [if_pos hcond]

theorem c8_witness :
    (RawBody.mk (some "gpt-4") (some 5)
        (some (.arr [⟨some "user", some (.str "hi")⟩]))).model = some "gpt-4" ∧
    ("gpt-4" : String).data.contains '#' = false ∧
    ∃ t st, handleAnthropicMessagesRequest
        (RawBody.mk (some "gpt-4") (some 5) (some (.arr [⟨some "user", some (.str "hi")⟩])))
        = .reject t st ∧ 400 ≤ st ∧ st < 500 :=
  ⟨rfl, rfl, c8_no_separator_rejected _ "gpt-4" rfl rfl⟩

/-! ## Claim C5 -/

/-- C5 counterexample: a response whose message has `tool_calls: []`
(present but empty — it carries no tool call) and `finish_reason:
"length"`.  The claim predicts `max_tokens`; the code tests JavaScript
truthiness of `message.tool_calls`, an empty array is truthy, and the
result is `tool_use`. -/
theorem c5_counterexample :
    convertNormalResponse (fun _ => none)
        ⟨[⟨⟨none, some []⟩, some "length"⟩]⟩
      = .ok ⟨[], some "tool_use"⟩ ∧
    ("tool_use" : String) ≠ "max_tokens" :=
  ⟨rfl, by decide⟩

/-- C5 amended: `stop_reason` is `tool_use` whenever the `tool_calls`
field is present (a non-null array, even an empty one); otherwise
`max_tokens` when `finish_reason` is `length`; otherwise `end_turn`. -/
theorem c5_stop_reason_amended (pj : ParseJson) (r : OAResponse) (c : OAChoice)
    (rest : List OAChoice) (res : AnthropicNormalResponse)
    (hc : r.choices = c :: rest) (hok : convertNormalResponse pj r = .ok res) :
    res.stop_reason = some (match c.message.tool_calls with
      | some _ => "tool_use"
      | none => if c.finish_reason == some "length" then "max_tokens" else "end_turn") := by
  simp only [convertNormalResponse, hc] at hok
  cases htc : c.message.tool_calls with
  | some tcs =>
    simp only [htc] at hok
    cases hmap : parseToolBlocks pj tcs with
    | ok blocks =>
      simp only [hmap] at hok
      cases hok
      simp [htc]
    | error e =>
      simp only [hmap] at hok
      cases hok
  | none =>
    simp only [htc] at hok
    cases hok
    simp [htc]

theorem c5_witness :
    (⟨[⟨⟨some "hello", none⟩, some "length"⟩]⟩ : OAResponse).choices
        = ⟨⟨some "hello", none⟩, some "length"⟩ :: [] ∧
    convertNormalResponse (fun _ => none) ⟨[⟨⟨some "hello", none⟩, some "length"⟩]⟩
        = .ok ⟨[.text "hello"], some "max_tokens"⟩ ∧
    (⟨[.text "hello"], some "max_tokens"⟩ : AnthropicNormalResponse).stop_reason
      = some (match (⟨some "hello", none⟩ : OAMessage).tool_calls with
          | some _ => "tool_use"
          | none => if ((⟨⟨some "hello", none⟩, some "length"⟩ : OAChoice).finish_reason
              == some "length") then "max_tokens" else "end_turn") :=
  ⟨rfl, rfl,
    c5_stop_reason_amended (fun _ => none) ⟨[⟨⟨some "hello", none⟩, some "length"⟩]⟩
      ⟨⟨some "hello", none⟩, some "length"⟩ [] ⟨[.text "hello"], some "max_tokens"⟩ rfl rfl⟩

/-! ## Claim C9 -/

theorem parseToolBlocks_error (pj : ParseJson) :
    ∀ (tcs : List OAToolCall) (tc : OAToolCall),
      tc ∈ tcs → pj tc.fargs = none → parseToolBlocks pj tcs = .error () := by
  intro tcs
  induction tcs with
  | nil => intro tc h; cases h
  | cons hd rest ih =>
    intro tc hmem hpj
    rcases List.mem_cons.mp hmem with h | h
    · subst h
      rw [parseToolBlocks, hpj]
    · rw [parseToolBlocks]
      cases hh : pj hd.fargs with
      | none => rfl
      | some j => rw [ih tc h hpj]

theorem stepToolCall_parse_none (pj : ParseJson) (sf : StringifyJson) (tb : ToolBuf)
    (tn ti : Nat) (tc : ToolCallDelta)
    (hpj : pj ((updateEntry ((bufGet tb (tc.index.getD 0)).getD BufEntry.empty) tc).args.getD "")
      = none) :
    stepToolCall pj sf tb tn ti tc
      = (bufSet tb (tc.index.getD 0)
          (updateEntry ((bufGet tb (tc.index.getD 0)).getD BufEntry.empty) tc), ti, []) := by
  rw [stepToolCall]
  by_cases hcomp : (truthyStr (updateEntry ((bufGet tb (tc.index.getD 0)).getD BufEntry.empty)
        tc).id
      && truthyStr (updateEntry ((bufGet tb (tc.index.getD 0)).getD BufEntry.empty) tc).name
      && truthyStr (updateEntry ((bufGet tb (tc.index.getD 0)).getD BufEntry.empty) tc).args)
      = true
  · rw [if_pos hcomp, hpj]
  · rw [if_neg hcomp]

theorem stepToolCalls_none (sf : StringifyJson) :
    ∀ (tcs : List ToolCallDelta) (tn : Nat) (tb : ToolBuf) (ti : Nat) (evs : List AEvent),
      (stepToolCalls (fun _ => none) sf tn (tb, ti, evs) tcs).2.2 = evs := by
  intro tcs
  induction tcs with
  | nil => intro tn tb ti evs; rfl
  | cons tc rest ih =>
    intro tn tb ti evs
    simp only [stepToolCalls, stepToolCall_parse_none (fun _ => none) sf tb tn ti tc rfl,
      List.append_nil]
    exact ih tn _ ti evs

theorem toolFold_none (sf : StringifyJson) (choice : ChunkChoice) (cti : Nat)
    (tb : ToolBuf) (ti : Nat) :
    (toolFold (fun _ => none) sf choice cti tb ti).2.2 = [] := by
  rw [toolFold]
  cases choice.tool_calls with
  | none => rfl
  | some tcs => exact stepToolCalls_none sf tcs cti tb ti []

theorem countP_append (p : AEvent → Bool) (a b : List AEvent) :
    countP p (a ++ b) = countP p a + countP p b := by
  simp [countP, List.filter_append]

theorem countP_isToolEvent_textEventsOf (choice : ChunkChoice) (ti : Nat) :
    countP isToolEvent (textEventsOf choice ti) = 0 := by
  rw [textEventsOf]
  by_cases hc : truthyStr choice.content = true
  · rw [if_pos hc]
    by_cases hti : (ti == 0) = true
    · rw [if_pos hti]; rfl
    · rw [if_neg hti]; rfl
  · rw [if_neg hc]; rfl

theorem countP_isToolEvent_finishEventsOf (choice : ChunkChoice) (cti : Nat) :
    countP isToolEvent (finishEventsOf choice cti) = 0 := by
  rw [finishEventsOf]
  by_cases hf : (truthyStr choice.finish_reason && cti > 0) = true
  · rw [if_pos hf]; rfl
  · rw [if_neg hf]; rfl

theorem convertStreamLine_none_toolfree (pc : ParseChunk) (sf : StringifyJson)
    (tb : ToolBuf) (js : String) (tIdx uIdx : Nat) (evs : List AEvent) (a b : Nat)
    (tb' : ToolBuf)
    (h : convertStreamLine pc (fun _ => none) sf tb js tIdx uIdx = (some (evs, a, b), tb')) :
    countP isToolEvent evs = 0 := by
  rw [convertStreamLine] at h
  cases hpc : pc js with
  | none => simp only [hpc] at h; cases h
  | some chunk =>
    simp only [hpc] at h
    cases hch : chunk.choices with
    | nil => simp only [hch] at h; cases h
    | cons choice crest =>
      simp only [hch] at h
      simp only [Prod.mk.injEq, Option.some.injEq] at h
      obtain ⟨⟨hevs, -, -⟩, -⟩ := h
      rw [← hevs, countP_append, countP_append, countP_isToolEvent_textEventsOf,
        toolFold_none, countP_isToolEvent_finishEventsOf]
      rfl

theorem countP_cons (p : AEvent → Bool) (e : AEvent) (l : List AEvent) :
    countP p (e :: l) = (if p e then 1 else 0) + countP p l := by
  simp only [countP, List.filter]
  cases p e with
  | true => simp [Nat.add_comm]
  | false => simp

theorem processFullLine_none (pc : ParseChunk) (sf : StringifyJson)
    (is : InnerState) (l : List Char) :
    countP isToolEvent (processFullLine pc (fun _ => none) sf is l).2 = 0 := by
  rw [processFullLine]
  by_cases h1 : (jsTrim l == []) = true
  · rw [if_pos h1]; rfl
  · rw [if_neg h1]
    by_cases h2 : (!(l.take 6 == "data: ".data)) = true
    · rw [if_pos h2]; rfl
    · rw [if_neg h2]
      by_cases h3 : (jsTrim (l.drop 6) == "[DONE]".data) = true
      · rw [if_pos h3]
        cases is.hasStartedContent with
        | true => rfl
        | false => rfl
      · rw [if_neg h3]
        by_cases h4 : (jsTrim (l.drop 6) == []) = true
        · rw [if_pos h4]; rfl
        · rw [if_neg h4]
          rcases hres : convertStreamLine pc (fun _ => none) sf is.toolBuf
              (String.mk (jsTrim (l.drop 6)))
              (if is.hasStartedContent then 1 else 0) is.toolUseBlockIndex with ⟨o, tb2⟩
          cases o with
          | none => rfl
          | some r =>
            show countP isToolEvent r.1 = 0
            exact convertStreamLine_none_toolfree pc sf _ _ _ _ r.1 r.2.1 r.2.2 tb2 hres

theorem foldLines_none (pc : ParseChunk) (sf : StringifyJson) :
    ∀ (ls : List (List Char)) (is : InnerState),
      countP isToolEvent (foldLines pc (fun _ => none) sf is ls).2 = 0 := by
  intro ls
  induction ls with
  | nil => intro is; rfl
  | cons l rest ih =>
    intro is
    rw [foldLines]
    show countP isToolEvent ((processFullLine pc (fun _ => none) sf is l).2 ++ _) = 0
    rw [countP_append, processFullLine_none, ih]

theorem processChunk_none (pc : ParseChunk) (sf : StringifyJson)
    (st : OuterState) (c : List Char) :
    countP isToolEvent (processChunk pc (fun _ => none) sf st c).2 = 0 := by
  rw [processChunk]
  exact foldLines_none pc sf _ st.inner

theorem runChunks_none (pc : ParseChunk) (sf : StringifyJson) :
    ∀ (cs : List (List Char)) (st : OuterState),
      countP isToolEvent (runChunks pc (fun _ => none) sf st cs).2 = 0 := by
  intro cs
  induction cs with
  | nil => intro st; rfl
  | cons c rest ih =>
    intro st
    rw [runChunks]
    show countP isToolEvent ((processChunk pc (fun _ => none) sf st c).2 ++ _) = 0
    rw [countP_append, processChunk_none, ih]

theorem flushStep_none (pc : ParseChunk) (sf : StringifyJson) (st : OuterState)
    (js : String) :
    countP isToolEvent (flushStepState st (convertStreamLine pc (fun _ => none) sf
      st.inner.toolBuf js
      (if st.inner.hasStartedContent then 1 else 0) st.inner.toolUseBlockIndex)).2 = 0 := by
  rcases hres : convertStreamLine pc (fun _ => none) sf st.inner.toolBuf js
      (if st.inner.hasStartedContent then 1 else 0) st.inner.toolUseBlockIndex with ⟨o, tb2⟩
  cases o with
  | none => rfl
  | some r =>
    show countP isToolEvent r.1 = 0
    exact convertStreamLine_none_toolfree pc sf _ _ _ _ r.1 r.2.1 r.2.2 tb2 hres

theorem finalFlush_none (pc : ParseChunk) (sf : StringifyJson) (st : OuterState) :
    countP isToolEvent (finalFlush pc (fun _ => none) sf st).2 = 0 := by
  rw [finalFlush]
  by_cases h1 : (jsTrim st.lineBuffer == []) = true
  · rw [if_pos h1]; rfl
  · rw [if_neg h1]
    by_cases h2 : ((jsTrim st.lineBuffer).take 6 == "data: ".data) = true
    · rw [if_pos h2]
      by_cases h3 : (jsTrim (st.lineBuffer.drop 6) == []
          || jsTrim (st.lineBuffer.drop 6) == "[DONE]".data) = true
      · rw [if_pos h3]; rfl
      · rw [if_neg h3]
        exact flushStep_none pc sf st _
    · rw [if_neg h2]
      by_cases h4 : ((fun (_ : String) => (none : Option Json))
          (String.mk (jsTrim st.lineBuffer))).isSome = true
      · rw [if_pos h4]
        exact flushStep_none pc sf st _
      · rw [if_neg h4]; rfl

theorem runStream_none_toolfree (pc : ParseChunk) (sf : StringifyJson)
    (chunks : List (List Char)) :
    countP isToolEvent (runStream pc (fun _ => none) sf chunks) = 0 := by
  rw [runStream, countP_cons]
  rw [show (isToolEvent AEvent.message_start) = false from rfl]
  rw [countP_append, countP_append, countP_append]
  rw [runChunks_none, finalFlush_none]
  by_cases h : ((finalFlush pc (fun _ => none) sf
      (runChunks pc (fun _ => none) sf ⟨⟨[], 0, false⟩, []⟩ chunks).1).1).inner.hasStartedContent
      = true
  · rw [if_pos h]; rfl
  · rw [if_neg h]; rfl

/-- C9: malformed tool-call arguments.  Non-streaming: if any tool call of
the first choice has arguments that do not parse, `convertNormalResponse`
throws (no response silently omitting the call is produced).  Streaming:
a tool-call delta whose accumulated arguments do not parse emits nothing
and leaves the accumulated entry buffered, and a stream whose tool-call
arguments never parse produces no `tool_use` `content_block_start` and no
`input_json_delta` at all. -/
theorem c9_malformed_tool_args :
    (∀ (pj : ParseJson) (r : OAResponse) (c : OAChoice) (rest : List OAChoice)
       (tcs : List OAToolCall) (tc : OAToolCall),
       r.choices = c :: rest → c.message.tool_calls = some tcs → tc ∈ tcs →
       pj tc.fargs = none → convertNormalResponse pj r = .error ()) ∧
    (∀ (pj : ParseJson) (sf : StringifyJson) (tb : ToolBuf) (tn ti : Nat)
       (tc : ToolCallDelta),
       pj ((updateEntry ((bufGet tb (tc.index.getD 0)).getD BufEntry.empty) tc).args.getD "")
         = none →
       stepToolCall pj sf tb tn ti tc
         = (bufSet tb (tc.index.getD 0)
             (updateEntry ((bufGet tb (tc.index.getD 0)).getD BufEntry.empty) tc), ti, [])) ∧
    (∀ (pc : ParseChunk) (sf : StringifyJson) (chunks : List (List Char)),
       countP isToolEvent (runStream pc (fun _ => none) sf chunks) = 0) := by
  refine ⟨?_, ?_, ?_⟩
  · intro pj r c rest tcs tc hc htc hmem hpj
    simp only [convertNormalResponse, hc, htc,
      parseToolBlocks_error pj tcs tc hmem hpj]
  · intro pj sf tb tn ti tc hpj
    exact stepToolCall_parse_none pj sf tb tn ti tc hpj
  · intro pc sf chunks
    exact runStream_none_toolfree pc sf chunks

theorem c9_witness :
    ((⟨[⟨⟨none, some [⟨"id1", "f", "oops"⟩]⟩, none⟩]⟩ : OAResponse).choices
        = ⟨⟨none, some [⟨"id1", "f", "oops"⟩]⟩, none⟩ :: []) ∧
    ((⟨none, some [⟨"id1", "f", "oops"⟩]⟩ : OAMessage).tool_calls
        = some [⟨"id1", "f", "oops"⟩]) ∧
    ((fun (_ : String) => (none : Option Json)) ("oops" : String) = none) ∧
    convertNormalResponse (fun _ => none)
        ⟨[⟨⟨none, some [⟨"id1", "f", "oops"⟩]⟩, none⟩]⟩ = .error () :=
  ⟨rfl, rfl, rfl,
    c9_malformed_tool_args.1 (fun _ => none)
      ⟨[⟨⟨none, some [⟨"id1", "f", "oops"⟩]⟩, none⟩]⟩
      ⟨⟨none, some [⟨"id1", "f", "oops"⟩]⟩, none⟩ [] [⟨"id1", "f", "oops"⟩]
      ⟨"id1", "f", "oops"⟩ rfl rfl (List.Mem.head _) rfl⟩

/-! ## Claim C4: chunking invariance -/

theorem splitChunk_append (x y : List Char) :
    splitChunk (x ++ y) =
      match (splitChunk y).1 with
      | [] => ((splitChunk x).1, (splitChunk x).2 ++ (splitChunk y).2)
      | l :: ls => ((splitChunk x).1 ++ ((splitChunk x).2 ++ l) :: ls, (splitChunk y).2) := by
  induction x with
  | nil =>
    cases hy : (splitChunk y).1 with
    | nil =>
      simp only [List.nil_append, splitChunk, hy]
      rw [show splitChunk y = ((splitChunk y).1, (splitChunk y).2) from rfl, hy]
    | cons l ls =>
      simp only [List.nil_append, splitChunk, hy]
      rw [show splitChunk y = ((splitChunk y).1, (splitChunk y).2) from rfl, hy]
  | cons c x' ih =>
    simp only [List.cons_append, splitChunk]
    by_cases hc : (c == '\n') = true
    · cases hy : (splitChunk y).1 with
      | nil => simp [hc, hy, ih]
      | cons l ls => simp [hc, hy, ih]
    · have hc' : (c == '\n') = false := by
        cases h : (c == '\n') with
        | false => rfl
        | true => exact absurd h hc
      cases hy : (splitChunk y).1 with
      | nil =>
        cases hx : (splitChunk x').1 with
        | nil => simp [hc', hy, hx, ih]
        | cons l0 ls0 => simp [hc', hy, hx, ih]
      | cons l ls =>
        cases hx : (splitChunk x').1 with
        | nil => simp [hc', hy, hx, ih]
        | cons l0 ls0 => simp [hc', hy, hx, ih]

theorem noNl_splitChunk_snd : ∀ s : List Char, '\n' ∉ (splitChunk s).2 := by
  intro s
  induction s with
  | nil => intro h; cases h
  | cons c rest ih =>
    rw [splitChunk]
    by_cases hc : (c == '\n') = true
    · rw [if_pos hc]; exact ih
    · have hc' : (c == '\n') = false := by
        cases h : (c == '\n') with
        | false => rfl
        | true => exact absurd h hc
      rw [if_neg (by rw [hc']; simp)]
      cases hx : (splitChunk rest).1 with
      | cons l ls => simpa [hx] using ih
      | nil =>
        simp only [hx]
        intro h
        rcases List.mem_cons.mp h with h1 | h1
        · rw [h1] at hc'
          simp at hc'
        · exact ih h1

theorem splitChunk_of_noNl : ∀ s : List Char, '\n' ∉ s → splitChunk s = ([], s) := by
  intro s
  induction s with
  | nil => intro _; rfl
  | cons c rest ih =>
    intro h
    have hc : (c == '\n') = false := by
      cases hcc : (c == '\n') with
      | false => rfl
      | true =>
        exact absurd (List.mem_cons_self c rest) (by rw [beq_iff_eq.mp hcc] at h ⊢; exact h)
    have hrest : '\n' ∉ rest := fun hr => h (List.mem_cons_of_mem c hr)
    rw [splitChunk, if_neg (by rw [hc]; simp), ih hrest]

theorem foldLines_append (pc : ParseChunk) (pj : ParseJson) (sf : StringifyJson) :
    ∀ (ls1 ls2 : List (List Char)) (is : InnerState),
      foldLines pc pj sf is (ls1 ++ ls2)
        = ((foldLines pc pj sf (foldLines pc pj sf is ls1).1 ls2).1,
           (foldLines pc pj sf is ls1).2
             ++ (foldLines pc pj sf (foldLines pc pj sf is ls1).1 ls2).2) := by
  intro ls1
  induction ls1 with
  | nil => intro ls2 is; rfl
  | cons l rest ih =>
    intro ls2 is
    simp [List.cons_append, foldLines, ih, List.append_assoc]

theorem processChunk_comp (pc : ParseChunk) (pj : ParseJson) (sf : StringifyJson)
    (st : OuterState) (a b : List Char) :
    processChunk pc pj sf st (a ++ b)
      = ((processChunk pc pj sf (processChunk pc pj sf st a).1 b).1,
         (processChunk pc pj sf st a).2
           ++ (processChunk pc pj sf (processChunk pc pj sf st a).1 b).2) := by
  have hx : splitChunk ((splitChunk (st.lineBuffer ++ a)).2)
      = ([], (splitChunk (st.lineBuffer ++ a)).2) :=
    splitChunk_of_noNl _ (noNl_splitChunk_snd _)
  simp only [processChunk]
  rw [show st.lineBuffer ++ (a ++ b) = (st.lineBuffer ++ a) ++ b from
    (List.append_assoc _ _ _).symm]
  rw [splitChunk_append (st.lineBuffer ++ a) b, splitChunk_append _ b, hx]
  cases hb : (splitChunk b).1 with
  | nil => simp [foldLines, foldLines_append pc pj sf]
  | cons l ls => simp [foldLines_append pc pj sf]

theorem runChunks_cons_append (pc : ParseChunk) (pj : ParseJson) (sf : StringifyJson)
    (st : OuterState) (a b : List Char) (cs : List (List Char)) :
    runChunks pc pj sf st ((a ++ b) :: cs) = runChunks pc pj sf st (a :: b :: cs) := by
  simp only [runChunks, processChunk_comp pc pj sf st a b, List.append_assoc]

theorem noNl_processChunk (pc : ParseChunk) (pj : ParseJson) (sf : StringifyJson)
    (st : OuterState) (c : List Char) :
    '\n' ∉ ((processChunk pc pj sf st c).1).lineBuffer := by
  rw [processChunk]
  exact noNl_splitChunk_snd _

theorem runChunks_join (pc : ParseChunk) (pj : ParseJson) (sf : StringifyJson) :
    ∀ (cs : List (List Char)) (st : OuterState), '\n' ∉ st.lineBuffer →
      runChunks pc pj sf st cs = runChunks pc pj sf st [listJoin cs] := by
  intro cs
  induction cs with
  | nil =>
    intro st hst
    show (st, []) = runChunks pc pj sf st [[]]
    simp only [runChunks, processChunk, List.append_nil, splitChunk_of_noNl _ hst]
    rfl
  | cons c rest ih =>
    intro st hst
    rw [show listJoin (c :: rest) = c ++ listJoin rest from rfl]
    rw [runChunks_cons_append]
    simp only [runChunks]
    rw [ih _ (noNl_processChunk pc pj sf st c)]
    simp [runChunks]

/-- C4: the outbound event sequence depends only on the logical upstream
character stream, not on how it is split into chunks: two deliveries with
the same concatenation re-encode identically (incomplete trailing lines
are buffered across reads and flushed at close by `finalFlush`). -/
theorem c4_chunking_invariance (pc : ParseChunk) (pj : ParseJson) (sf : StringifyJson)
    (cs1 cs2 : List (List Char)) (h : listJoin cs1 = listJoin cs2) :
    runStream pc pj sf cs1 = runStream pc pj sf cs2 := by
  rw [runStream, runStream]
  rw [runChunks_join pc pj sf cs1 _ (by intro hh; cases hh)]
  rw [runChunks_join pc pj sf cs2 _ (by intro hh; cases hh)]
  rw [h]

theorem c4_witness :
    listJoin [("data: " ++ chunkTextOnly).data, ("\nda" : String).data,
        ("ta: [DONE]\n" : String).data]
      = listJoin [("data: " ++ chunkTextOnly ++ "\ndata: [DONE]\n").data] ∧
    runStream demoParseChunk demoParseJson demoStringify
        [("data: " ++ chunkTextOnly).data, ("\nda" : String).data,
         ("ta: [DONE]\n" : String).data]
      = runStream demoParseChunk demoParseJson demoStringify
        [("data: " ++ chunkTextOnly ++ "\ndata: [DONE]\n").data] :=
  ⟨by decide, c4_chunking_invariance demoParseChunk demoParseJson demoStringify _ _ (by decide)⟩

/-! ## Stream lifecycle invariants (claims C1 and C3) -/

theorem TextOkFrom_of_no_delta (p : Nat) (evs : List AEvent)
    (h : countP isTextDelta evs = 0) : TextOkFrom p evs := by
  intro l₁ i d l₂ he
  exfalso
  rw [he, countP_append, countP_cons] at h
  simp only [show isTextDelta (AEvent.content_block_delta i (.text_delta d)) = true from rfl,
    if_true] at h
  omega

theorem TextOkFrom_append (p : Nat) (a b : List AEvent) (ha : TextOkFrom p a)
    (hb : TextOkFrom (p + countP isTextStart a) b) : TextOkFrom p (a ++ b) := by
  intro l₁ i d l₂ he
  rcases List.append_eq_append_iff.mp he with ⟨a', ha1, ha2⟩ | ⟨c', hc1, hc2⟩
  · obtain ⟨h1, h2⟩ := hb a' i d l₂ ha2
    refine ⟨h1, ?_⟩
    rw [ha1, countP_append]
    simp only [countP] at h2 ⊢
    omega
  · cases c' with
    | nil =>
      simp only [List.nil_append] at hc2
      obtain ⟨h1, h2⟩ := hb [] i d l₂ hc2.symm
      refine ⟨h1, ?_⟩
      rw [List.append_nil] at hc1
      rw [← hc1]
      simp only [countP, List.filter_nil, List.length_nil] at h2 ⊢
      omega
    | cons e c'' =>
      rw [List.cons_append] at hc2
      injection hc2 with he1 he2
      obtain ⟨h1, h2⟩ := ha l₁ i d c'' (by rw [hc1, ← he1])
      exact ⟨h1, h2⟩

theorem ToolAdj_nil : ToolAdj [] := by
  intro l₁ i id name l₂ he
  exact absurd he.symm (by simp)

theorem ToolAdj_of_no_toolstart (evs : List AEvent)
    (h : countP isToolStart evs = 0) : ToolAdj evs := by
  intro l₁ i id name l₂ he
  exfalso
  rw [he, countP_append, countP_cons] at h
  simp only [show isToolStart (AEvent.content_block_start i (.tool_use id name)) = true
    from rfl, if_true] at h
  omega

theorem ToolAdj_append (a b : List AEvent) (ha : ToolAdj a) (hb : ToolAdj b) :
    ToolAdj (a ++ b) := by
  intro l₁ i id name l₂ he
  rcases List.append_eq_append_iff.mp he with ⟨a', ha1, ha2⟩ | ⟨c', hc1, hc2⟩
  · exact hb a' i id name l₂ ha2
  · cases c' with
    | nil =>
      simp only [List.nil_append] at hc2
      exact hb [] i id name l₂ hc2.symm
    | cons e c'' =>
      rw [List.cons_append] at hc2
      injection hc2 with he1 he2
      obtain ⟨s, l₃, hl⟩ := ha l₁ i id name c'' (by rw [hc1, ← he1])
      exact ⟨s, l₃ ++ b, by rw [he2, hl, List.cons_append, List.cons_append]⟩

theorem Triples_append (a b : List AEvent) (ha : Triples a) (hb : Triples b) :
    Triples (a ++ b) := by
  induction ha with
  | nil => exact hb
  | cons i id name s rest h ih => exact Triples.cons i id name s _ ih

theorem Triples_toolAdj (evs : List AEvent) (h : Triples evs) : ToolAdj evs := by
  induction h with
  | nil => exact ToolAdj_nil
  | cons i id name s rest h ih =>
    intro l₁ j jd jn l₂ he
    cases l₁ with
    | nil =>
      simp only [List.nil_append] at he
      injection he with he1 he2
      injection he1 with hi hblk
      injection hblk with hid hname
      subst hi hid hname
      exact ⟨s, rest, he2.symm⟩
    | cons e1 l₁' =>
      rw [List.cons_append] at he
      injection he with he1 he2
      cases l₁' with
      | nil =>
        simp only [List.nil_append] at he2
        injection he2 with he3 _
        exact AEvent.noConfusion he3
      | cons e2 l₁'' =>
        rw [List.cons_append] at he2
        injection he2 with he3 he4
        cases l₁'' with
        | nil =>
          simp only [List.nil_append] at he4
          injection he4 with he5 _
          exact AEvent.noConfusion he5
        | cons e3 l₁''' =>
          rw [List.cons_append] at he4
          injection he4 with he5 he6
          exact ih l₁''' j jd jn l₂ he6

theorem Triples_counts (evs : List AEvent) (h : Triples evs) :
    countP isTextStart evs = 0 ∧ countP isTextDelta evs = 0 ∧
    countP isMsgStart evs = 0 ∧ countP isMsgStop evs = 0 ∧
    countP isBadTextStart evs = 0 := by
  induction h with
  | nil => exact ⟨rfl, rfl, rfl, rfl, rfl⟩
  | cons i id name s rest h ih =>
    obtain ⟨h1, h2, h3, h4, h5⟩ := ih
    refine ⟨?_, ?_, ?_, ?_, ?_⟩ <;>
      simp [countP_cons, isTextStart, isTextDelta, isMsgStart, isMsgStop, isBadTextStart,
        h1, h2, h3, h4, h5]

theorem stepToolCall_events_shape (pj : ParseJson) (sf : StringifyJson) (tb : ToolBuf)
    (tn ti : Nat) (tc : ToolCallDelta) :
    (stepToolCall pj sf tb tn ti tc).2.2 = [] ∨
    ∃ i id name s, (stepToolCall pj sf tb tn ti tc).2.2
      = [AEvent.content_block_start i (.tool_use id name),
         AEvent.content_block_delta i (.input_json_delta s),
         AEvent.content_block_stop i] := by
  rw [stepToolCall]
  by_cases hc : (truthyStr (updateEntry ((bufGet tb (tc.index.getD 0)).getD BufEntry.empty)
        tc).id
      && truthyStr (updateEntry ((bufGet tb (tc.index.getD 0)).getD BufEntry.empty) tc).name
      && truthyStr (updateEntry ((bufGet tb (tc.index.getD 0)).getD BufEntry.empty) tc).args)
      = true
  · rw [if_pos hc]
    cases hpj : pj ((updateEntry ((bufGet tb (tc.index.getD 0)).getD BufEntry.empty)
        tc).args.getD "") with
    | none => left; rfl
    | some args => right; exact ⟨_, _, _, _, rfl⟩
  · rw [if_neg hc]
    left
    rfl

theorem stepToolCalls_triples (pj : ParseJson) (sf : StringifyJson) (tn : Nat) :
    ∀ (tcs : List ToolCallDelta) (acc : ToolBuf × Nat × List AEvent),
      Triples acc.2.2 → Triples (stepToolCalls pj sf tn acc tcs).2.2 := by
  intro tcs
  induction tcs with
  | nil => intro acc h; exact h
  | cons tc rest ih =>
    intro acc h
    rw [stepToolCalls]
    apply ih
    show Triples (acc.2.2 ++ (stepToolCall pj sf acc.1 tn acc.2.1 tc).2.2)
    rcases stepToolCall_events_shape pj sf acc.1 tn acc.2.1 tc with hsh | ⟨i, id, name, s, hsh⟩
    · rw [hsh, List.append_nil]; exact h
    · rw [hsh]
      exact Triples_append _ _ h (Triples.cons i id name s [] Triples.nil)

theorem toolFold_triples (pj : ParseJson) (sf : StringifyJson) (choice : ChunkChoice)
    (cti : Nat) (tb : ToolBuf) (ti : Nat) :
    Triples (toolFold pj sf choice cti tb ti).2.2 := by
  rw [toolFold]
  cases choice.tool_calls with
  | none => exact Triples.nil
  | some tcs => exact stepToolCalls_triples pj sf cti tcs (tb, ti, []) Triples.nil

theorem textEventsOf_count_textStart (choice : ChunkChoice) (ti : Nat) :
    countP isTextStart (textEventsOf choice ti)
      = if truthyStr choice.content && (ti == 0) then 1 else 0 := by
  rw [textEventsOf]
  by_cases hc : truthyStr choice.content = true
  · rw [if_pos hc]
    by_cases hti : (ti == 0) = true
    · rw [if_pos hti]
      simp [hc, hti]
      rfl
    · rw [if_neg hti]
      have hb : (truthyStr choice.content && (ti == 0)) = false := by
        cases h : (ti == 0) with
        | false => simp
        | true => exact absurd h hti
      rw [hb]
      rfl
  · have hc' : truthyStr choice.content = false := by
      cases h : truthyStr choice.content with
      | false => rfl
      | true => exact absurd h hc
    rw [if_neg hc, hc']
    rfl

theorem textEventsOf_counts_zero (choice : ChunkChoice) (ti : Nat) :
    countP isToolStart (textEventsOf choice ti) = 0 ∧
    countP isMsgStart (textEventsOf choice ti) = 0 ∧
    countP isMsgStop (textEventsOf choice ti) = 0 ∧
    countP isBadTextStart (textEventsOf choice ti) = 0 := by
  rw [textEventsOf]
  by_cases hc : truthyStr choice.content = true
  · rw [if_pos hc]
    by_cases hti : (ti == 0) = true
    · rw [if_pos hti]; exact ⟨rfl, rfl, rfl, rfl⟩
    · rw [if_neg hti]; exact ⟨rfl, rfl, rfl, rfl⟩
  · rw [if_neg hc]; exact ⟨rfl, rfl, rfl, rfl⟩

theorem textEventsOf_textOk (choice : ChunkChoice) (ti : Nat) :
    TextOkFrom (if ti == 0 then 0 else 1) (textEventsOf choice ti) := by
  rw [textEventsOf]
  by_cases hc : truthyStr choice.content = true
  · rw [if_pos hc]
    by_cases hti : (ti == 0) = true
    · rw [if_pos hti, if_pos hti]
      intro l₁ i d l₂ he
      cases l₁ with
      | nil =>
        simp only [List.nil_append, List.cons_append] at he
        injection he with he1 _
        exact AEvent.noConfusion he1
      | cons e1 l₁' =>
        simp only [List.cons_append] at he
        injection he with he1 he2
        cases l₁' with
        | nil =>
          simp only [List.nil_append] at he2
          injection he2 with he3 _
          injection he3 with hi hd
          injection hd with ht
          subst hi
          exact ⟨rfl, by rw [← he1]; simp [countP_cons, isTextStart]⟩
        | cons e2 l₁'' =>
          rw [List.cons_append] at he2
          injection he2 with he3 he4
          exact absurd he4.symm (by simp)
    · rw [if_neg hti, if_neg hti]
      intro l₁ i d l₂ he
      cases l₁ with
      | nil =>
        simp only [List.nil_append] at he
        injection he with he1 _
        injection he1 with hi hd
        injection hd with ht
        subst hi
        exact ⟨rfl, by omega⟩
      | cons e1 l₁' =>
        simp only [List.cons_append, List.nil_append] at he
        injection he with he1 he2
        exact absurd he2.symm (by simp)
  · rw [if_neg hc]
    exact TextOkFrom_of_no_delta _ [] rfl

theorem finishEventsOf_counts (choice : ChunkChoice) (cti : Nat) :
    countP isTextStart (finishEventsOf choice cti) = 0 ∧
    countP isTextDelta (finishEventsOf choice cti) = 0 ∧
    countP isToolStart (finishEventsOf choice cti) = 0 ∧
    countP isMsgStart (finishEventsOf choice cti) = 0 ∧
    countP isMsgStop (finishEventsOf choice cti) = 0 ∧
    countP isBadTextStart (finishEventsOf choice cti) = 0 := by
  rw [finishEventsOf]
  by_cases hf : (truthyStr choice.finish_reason && cti > 0) = true
  · rw [if_pos hf]; exact ⟨rfl, rfl, rfl, rfl, rfl, rfl⟩
  · rw [if_neg hf]; exact ⟨rfl, rfl, rfl, rfl, rfl, rfl⟩

theorem StreamInv_append (h h' : Bool) (evs g : List AEvent)
    (hinv : StreamInv h evs)
    (hcnt : countP isTextStart g = (if h then 0 else if h' then 1 else 0))
    (hmono : h = true → h' = true)
    (htx : TextOkFrom (if h then 1 else 0) g)
    (hta : ToolAdj g)
    (hm1 : countP isMsgStart g = 0) (hm2 : countP isMsgStop g = 0)
    (hbts : countP isBadTextStart g = 0) :
    StreamInv h' (evs ++ g) := by
  obtain ⟨i1, i2, i3, i4, i5, i6⟩ := hinv
  refine ⟨?_, ?_, ?_, ?_, ?_, ?_⟩
  · rw [countP_append, i1, hcnt]
    cases h with
    | true => rw [hmono rfl]; decide
    | false =>
      cases h' with
      | true => rfl
      | false => rfl
  · refine TextOkFrom_append 0 evs g i2 ?_
    rw [i1]
    cases h with
    | true => simpa using htx
    | false => simpa using htx
  · exact ToolAdj_append _ _ i3 hta
  · rw [countP_append, i4, hm1]
  · rw [countP_append, i5, hm2]
  · rw [countP_append, i6, hbts]

/-- Appending events that are neither text starts/deltas, tool starts,
nor message boundary events preserves the invariant. -/
theorem StreamInv_append_neutral (h : Bool) (evs g : List AEvent)
    (hinv : StreamInv h evs)
    (hz : countP isTextStart g = 0 ∧ countP isTextDelta g = 0 ∧
      countP isToolStart g = 0 ∧ countP isMsgStart g = 0 ∧
      countP isMsgStop g = 0 ∧ countP isBadTextStart g = 0) :
    StreamInv h (evs ++ g) := by
  obtain ⟨z1, z2, z3, z4, z5, z6⟩ := hz
  refine StreamInv_append h h evs g hinv ?_ (fun hh => hh)
    (TextOkFrom_of_no_delta _ g z2) (ToolAdj_of_no_toolstart g z3) z4 z5 z6
  rw [z1]
  cases h with
  | true => rfl
  | false => rfl

theorem convertStreamLine_groupOk (pc : ParseChunk) (pj : ParseJson) (sf : StringifyJson)
    (tb : ToolBuf) (js : String) (h : Bool) (uIdx : Nat) (evs : List AEvent)
    (tIdx' uIdx' : Nat) (tb' : ToolBuf)
    (hres : convertStreamLine pc pj sf tb js (if h then 1 else 0) uIdx
      = (some (evs, tIdx', uIdx'), tb')) :
    countP isTextStart evs = (if h then 0 else if tIdx' > 0 then 1 else 0) ∧
    TextOkFrom (if h then 1 else 0) evs ∧
    ToolAdj evs ∧
    countP isMsgStart evs = 0 ∧
    countP isMsgStop evs = 0 ∧
    countP isBadTextStart evs = 0 ∧
    (h = true → tIdx' > 0) := by
  rw [convertStreamLine] at hres
  cases hpc : pc js with
  | none => simp only [hpc] at hres; cases hres
  | some chunk =>
    simp only [hpc] at hres
    cases hch : chunk.choices with
    | nil => simp only [hch] at hres; cases hres
    | cons choice crest =>
      simp only [hch] at hres
      simp only [Prod.mk.injEq, Option.some.injEq] at hres
      obtain ⟨⟨hevs, htix, -⟩, -⟩ := hres
      have htr := toolFold_triples pj sf choice
        (textIndexAfter choice (if h then 1 else 0)) tb uIdx
      obtain ⟨tc1, tc2, tc3, tc4, tc5⟩ := Triples_counts _ htr
      obtain ⟨tz1, tz2, tz3, tz4⟩ := textEventsOf_counts_zero choice (if h then 1 else 0)
      obtain ⟨f1, f2, f3, f4, f5, f6⟩ := finishEventsOf_counts choice
        (textIndexAfter choice (if h then 1 else 0))
      subst hevs
      refine ⟨?_, ?_, ?_, ?_, ?_, ?_, ?_⟩
      · rw [countP_append, countP_append, tc1, f1,
          textEventsOf_count_textStart choice (if h then 1 else 0)]
        rw [← htix, textIndexAfter]
        cases h with
        | true => simp
        | false =>
          by_cases hco : truthyStr choice.content = true
          · simp [hco]
          · have hco' : truthyStr choice.content = false := by
              cases hx : truthyStr choice.content with
              | false => rfl
              | true => exact absurd hx hco
            simp [hco']
      · refine TextOkFrom_append _ _ _ ?_ ?_
        · refine TextOkFrom_append _ _ _ ?_ ?_
          · have := textEventsOf_textOk choice (if h then 1 else 0)
            cases h with
            | true => simpa using this
            | false => simpa using this
          · exact TextOkFrom_of_no_delta _ _ tc2
        · exact TextOkFrom_of_no_delta _ _ f2
      · refine ToolAdj_append _ _ ?_ (ToolAdj_of_no_toolstart _ f3)
        exact ToolAdj_append _ _ (ToolAdj_of_no_toolstart _ tz1) (Triples_toolAdj _ htr)
      · rw [countP_append, countP_append, tc3, f4, tz2]
      · rw [countP_append, countP_append, tc4, f5, tz3]
      · rw [countP_append, countP_append, tc5, f6, tz4]
      · intro hh
        subst hh
        rw [← htix, textIndexAfter]
        by_cases hco : truthyStr choice.content = true
        · simp [hco]
        · simp [hco]

theorem processFullLine_inv (pc : ParseChunk) (pj : ParseJson) (sf : StringifyJson)
    (is : InnerState) (l : List Char) (evs : List AEvent)
    (hinv : StreamInv is.hasStartedContent evs) :
    StreamInv ((processFullLine pc pj sf is l).1).hasStartedContent
      (evs ++ (processFullLine pc pj sf is l).2) := by
  rw [processFullLine]
  by_cases h1 : (jsTrim l == []) = true
  · rw [if_pos h1]; simpa using hinv
  · rw [if_neg h1]
    by_cases h2 : (!(l.take 6 == "data: ".data)) = true
    · rw [if_pos h2]; simpa using hinv
    · rw [if_neg h2]
      by_cases h3 : (jsTrim (l.drop 6) == "[DONE]".data) = true
      · rw [if_pos h3]
        show StreamInv is.hasStartedContent
          (evs ++ (if is.hasStartedContent then [AEvent.content_block_stop 0] else []))
        refine StreamInv_append_neutral _ _ _ hinv ?_
        by_cases hh : is.hasStartedContent = true
        · rw [if_pos hh]; exact ⟨rfl, rfl, rfl, rfl, rfl, rfl⟩
        · rw [if_neg hh]; exact ⟨rfl, rfl, rfl, rfl, rfl, rfl⟩
      · rw [if_neg h3]
        by_cases h4 : (jsTrim (l.drop 6) == []) = true
        · rw [if_pos h4]; simpa using hinv
        · rw [if_neg h4]
          rcases hres : convertStreamLine pc pj sf is.toolBuf
              (String.mk (jsTrim (l.drop 6)))
              (if is.hasStartedContent then 1 else 0) is.toolUseBlockIndex with ⟨o, tb2⟩
          cases o with
          | none => simpa [lineStepState] using hinv
          | some r =>
            obtain ⟨g1, g2, g3, g4, g5, g6, g7⟩ := convertStreamLine_groupOk pc pj sf
              is.toolBuf (String.mk (jsTrim (l.drop 6))) is.hasStartedContent
              is.toolUseBlockIndex r.1 r.2.1 r.2.2 tb2 hres
            show StreamInv (is.hasStartedContent || r.2.1 > 0) (evs ++ r.1)
            refine StreamInv_append _ _ _ _ hinv ?_ ?_ g2 g3 g4 g5 g6
            · rw [g1]
              cases hh : is.hasStartedContent with
              | true => rfl
              | false =>
                by_cases hgt : r.2.1 > 0
                · simp [hgt]
                · simp [hgt]
            · intro hh
              rw [hh]
              simp

theorem foldLines_inv (pc : ParseChunk) (pj : ParseJson) (sf : StringifyJson) :
    ∀ (ls : List (List Char)) (is : InnerState) (evs : List AEvent),
      StreamInv is.hasStartedContent evs →
      StreamInv ((foldLines pc pj sf is ls).1).hasStartedContent
        (evs ++ (foldLines pc pj sf is ls).2) := by
  intro ls
  induction ls with
  | nil => intro is evs h; simpa [foldLines] using h
  | cons l rest ih =>
    intro is evs h
    rw [foldLines]
    show StreamInv
      ((foldLines pc pj sf (processFullLine pc pj sf is l).1 rest).1).hasStartedContent
      (evs ++ ((processFullLine pc pj sf is l).2
        ++ (foldLines pc pj sf (processFullLine pc pj sf is l).1 rest).2))
    rw [← List.append_assoc]
    exact ih (processFullLine pc pj sf is l).1 _ (processFullLine_inv pc pj sf is l evs h)

theorem runChunks_inv (pc : ParseChunk) (pj : ParseJson) (sf : StringifyJson) :
    ∀ (cs : List (List Char)) (st : OuterState) (evs : List AEvent),
      StreamInv st.inner.hasStartedContent evs →
      StreamInv ((runChunks pc pj sf st cs).1).inner.hasStartedContent
        (evs ++ (runChunks pc pj sf st cs).2) := by
  intro cs
  induction cs with
  | nil => intro st evs h; simpa [runChunks] using h
  | cons c rest ih =>
    intro st evs h
    rw [runChunks]
    show StreamInv
      ((runChunks pc pj sf (processChunk pc pj sf st c).1 rest).1).inner.hasStartedContent
      (evs ++ ((processChunk pc pj sf st c).2
        ++ (runChunks pc pj sf (processChunk pc pj sf st c).1 rest).2))
    rw [← List.append_assoc]
    refine ih (processChunk pc pj sf st c).1 _ ?_
    show StreamInv ((foldLines pc pj sf st.inner
      (splitChunk (st.lineBuffer ++ c)).1).1).hasStartedContent
      (evs ++ (foldLines pc pj sf st.inner (splitChunk (st.lineBuffer ++ c)).1).2)
    exact foldLines_inv pc pj sf _ st.inner evs h

theorem flushStep_inv (pc : ParseChunk) (pj : ParseJson) (sf : StringifyJson)
    (st : OuterState) (js : String) (evs : List AEvent)
    (hinv : StreamInv st.inner.hasStartedContent evs) :
    StreamInv (((flushStepState st (convertStreamLine pc pj sf st.inner.toolBuf js
        (if st.inner.hasStartedContent then 1 else 0)
        st.inner.toolUseBlockIndex)).1).inner).hasStartedContent
      (evs ++ (flushStepState st (convertStreamLine pc pj sf st.inner.toolBuf js
        (if st.inner.hasStartedContent then 1 else 0) st.inner.toolUseBlockIndex)).2) := by
  rcases hres : convertStreamLine pc pj sf st.inner.toolBuf js
      (if st.inner.hasStartedContent then 1 else 0) st.inner.toolUseBlockIndex with ⟨o, tb2⟩
  cases o with
  | none => simpa [flushStepState] using hinv
  | some r =>
    obtain ⟨g1, g2, g3, g4, g5, g6, g7⟩ := convertStreamLine_groupOk pc pj sf
      st.inner.toolBuf js st.inner.hasStartedContent
      st.inner.toolUseBlockIndex r.1 r.2.1 r.2.2 tb2 hres
    show StreamInv (st.inner.hasStartedContent || r.2.1 > 0) (evs ++ r.1)
    refine StreamInv_append _ _ _ _ hinv ?_ ?_ g2 g3 g4 g5 g6
    · rw [g1]
      cases hh : st.inner.hasStartedContent with
      | true => rfl
      | false =>
        by_cases hgt : r.2.1 > 0
        · simp [hgt]
        · simp [hgt]
    · intro hh
      rw [hh]
      simp

theorem finalFlush_inv (pc : ParseChunk) (pj : ParseJson) (sf : StringifyJson)
    (st : OuterState) (evs : List AEvent)
    (hinv : StreamInv st.inner.hasStartedContent evs) :
    StreamInv (((finalFlush pc pj sf st).1).inner).hasStartedContent
      (evs ++ (finalFlush pc pj sf st).2) := by
  rw [finalFlush]
  by_cases h1 : (jsTrim st.lineBuffer == []) = true
  · rw [if_pos h1]; simpa using hinv
  · rw [if_neg h1]
    by_cases h2 : ((jsTrim st.lineBuffer).take 6 == "data: ".data) = true
    · rw [if_pos h2]
      by_cases h3 : (jsTrim (st.lineBuffer.drop 6) == []
          || jsTrim (st.lineBuffer.drop 6) == "[DONE]".data) = true
      · rw [if_pos h3]; simpa using hinv
      · rw [if_neg h3]
        exact flushStep_inv pc pj sf st _ evs hinv
    · rw [if_neg h2]
      by_cases h4 : (pj (String.mk (jsTrim st.lineBuffer))).isSome = true
      · rw [if_pos h4]
        exact flushStep_inv pc pj sf st _ evs hinv
      · rw [if_neg h4]; simpa using hinv

/-- The invariant holds of all chunk-derived events of a run, with
`hasStartedContent` of the final state as the flag. -/
theorem runStream_inv (pc : ParseChunk) (pj : ParseJson) (sf : StringifyJson)
    (chunks : List (List Char)) :
    StreamInv (((finalFlush pc pj sf
        (runChunks pc pj sf ⟨⟨[], 0, false⟩, []⟩ chunks).1).1).inner).hasStartedContent
      ((runChunks pc pj sf ⟨⟨[], 0, false⟩, []⟩ chunks).2
        ++ (finalFlush pc pj sf (runChunks pc pj sf ⟨⟨[], 0, false⟩, []⟩ chunks).1).2) := by
  refine finalFlush_inv pc pj sf _ _ ?_
  have h0 : StreamInv false [] :=
    ⟨rfl, TextOkFrom_of_no_delta 0 [] rfl, ToolAdj_nil, rfl, rfl, rfl⟩
  simpa using runChunks_inv pc pj sf chunks ⟨⟨[], 0, false⟩, []⟩ [] h0

theorem stream_run_assemble (h : Bool) (mid : List AEvent) (hinv : StreamInv h mid) :
    countP isTextStart (AEvent.message_start :: (mid
        ++ (if h then [AEvent.content_block_stop 0] else []) ++ [AEvent.message_stop]))
      = (if h then 1 else 0) ∧
    countP isBadTextStart (AEvent.message_start :: (mid
        ++ (if h then [AEvent.content_block_stop 0] else []) ++ [AEvent.message_stop])) = 0 ∧
    TextOkFrom 0 (AEvent.message_start :: (mid
        ++ (if h then [AEvent.content_block_stop 0] else []) ++ [AEvent.message_stop])) ∧
    ToolAdj (AEvent.message_start :: (mid
        ++ (if h then [AEvent.content_block_stop 0] else []) ++ [AEvent.message_stop])) ∧
    countP isMsgStart (AEvent.message_start :: (mid
        ++ (if h then [AEvent.content_block_stop 0] else []) ++ [AEvent.message_stop])) = 1 ∧
    countP isMsgStop (AEvent.message_start :: (mid
        ++ (if h then [AEvent.content_block_stop 0] else []) ++ [AEvent.message_stop])) = 1 := by
  obtain ⟨i1, i2, i3, i4, i5, i6⟩ := hinv
  have hopt : ∀ p : AEvent → Bool, p (AEvent.content_block_stop 0) = false →
      countP p (if h then [AEvent.content_block_stop 0] else []) = 0 := by
    intro p hp
    cases h with
    | true => simp [countP, List.filter, hp]
    | false => rfl
  have hoptDelta : countP isTextDelta (if h then [AEvent.content_block_stop 0] else [])
      = 0 := hopt isTextDelta rfl
  have hoptTool : countP isToolStart (if h then [AEvent.content_block_stop 0] else [])
      = 0 := hopt isToolStart rfl
  refine ⟨?_, ?_, ?_, ?_, ?_, ?_⟩
  · rw [countP_cons, countP_append, countP_append, i1, hopt isTextStart rfl]
    simp [isTextStart, countP, List.filter]
  · rw [countP_cons, countP_append, countP_append, i6, hopt isBadTextStart rfl]
    simp [isBadTextStart, countP, List.filter]
  · rw [show AEvent.message_start :: (mid
        ++ (if h then [AEvent.content_block_stop 0] else []) ++ [AEvent.message_stop])
      = [AEvent.message_start] ++ (mid
        ++ (if h then [AEvent.content_block_stop 0] else []) ++ [AEvent.message_stop])
      from rfl]
    refine TextOkFrom_append _ _ _ (TextOkFrom_of_no_delta _ _ rfl) ?_
    refine TextOkFrom_append _ _ _ ?_ (TextOkFrom_of_no_delta _ _ rfl)
    refine TextOkFrom_append _ _ _ ?_ (TextOkFrom_of_no_delta _ _ hoptDelta)
    have : (0 : Nat) + countP isTextStart [AEvent.message_start] = 0 := rfl
    rw [this]
    exact i2
  · rw [show AEvent.message_start :: (mid
        ++ (if h then [AEvent.content_block_stop 0] else []) ++ [AEvent.message_stop])
      = [AEvent.message_start] ++ (mid
        ++ (if h then [AEvent.content_block_stop 0] else []) ++ [AEvent.message_stop])
      from rfl]
    refine ToolAdj_append _ _ (ToolAdj_of_no_toolstart _ rfl) ?_
    refine ToolAdj_append _ _ ?_ (ToolAdj_of_no_toolstart _ rfl)
    exact ToolAdj_append _ _ i3 (ToolAdj_of_no_toolstart _ hoptTool)
  · rw [countP_cons, countP_append, countP_append, i4, hopt isMsgStart rfl]
    simp [isMsgStart, countP, List.filter]
  · rw [countP_cons, countP_append, countP_append, i5, hopt isMsgStop rfl]
    simp [isMsgStop, countP, List.filter]

/-! ## Claim C1 -/

set_option maxRecDepth 8000 in
/-- C1 counterexample.  First run (`text delta with finish_reason, then a
[DONE] line`): index 0 receives a delta but *three* `content_block_stop`
events — one from the finish signal, one from the `[DONE]` sentinel, one
from the end-of-stream safety net — falsifying "exactly one
content_block_stop".  Second run (a tool call completing before any text,
then text): index 0 receives *two* `content_block_start` events — the
tool block is assigned `index = position = 0` because no text block is
open yet, and the later text block also claims index 0 — falsifying "no
index ever receives a second content_block_start" and the index-0
reservation. -/
theorem c1_counterexample :
    runStream demoParseChunk demoParseJson demoStringify
        [sseLine chunkTextFinish ++ ("data: [DONE]\n" : String).data]
      = [.message_start, .content_block_start 0 .text,
         .content_block_delta 0 (.text_delta "hi"), .content_block_stop 0,
         .content_block_stop 0, .content_block_stop 0, .message_stop] ∧
    countP (isStopAt 0) (runStream demoParseChunk demoParseJson demoStringify
        [sseLine chunkTextFinish ++ ("data: [DONE]\n" : String).data]) = 3 ∧
    runStream demoParseChunk demoParseJson demoStringify
        [sseLine chunkToolComplete, sseLine chunkTextOnly]
      = [.message_start, .content_block_start 0 (.tool_use "call_1" "lookup"),
         .content_block_delta 0 (.input_json_delta "\x7b\x7d"), .content_block_stop 0,
         .content_block_start 0 .text, .content_block_delta 0 (.text_delta "hi"),
         .content_block_stop 0, .message_stop] ∧
    countP (isStartAt 0) (runStream demoParseChunk demoParseJson demoStringify
        [sseLine chunkToolComplete, sseLine chunkTextOnly]) = 2 :=
  ⟨rfl, rfl, rfl, rfl⟩

/-- C1 amended: in every outbound sequence, at most one *text*
`content_block_start` is emitted, always at index 0, and it precedes
every `text_delta` (all of which are at index 0); every tool-call
lifecycle appears as an adjacent start/delta/stop triple at a single
index.  However an index that receives deltas may receive several
`content_block_stop` events (finish signal, each `[DONE]` line, and the
end-of-stream safety net each close index 0 independently), and index 0
is not reserved: a tool call completing before the first text delta is
assigned its upstream position as block index, which collides with the
text block when text follows, and a position re-delivered after
completion fires a second lifecycle at the same index. -/
theorem c1_block_lifecycle_amended (pc : ParseChunk) (pj : ParseJson) (sf : StringifyJson)
    (chunks : List (List Char)) :
    countP isTextStart (runStream pc pj sf chunks) ≤ 1 ∧
    countP isBadTextStart (runStream pc pj sf chunks) = 0 ∧
    TextOkFrom 0 (runStream pc pj sf chunks) ∧
    ToolAdj (runStream pc pj sf chunks) := by
  obtain ⟨a1, a2, a3, a4, -, -⟩ := stream_run_assemble _ _ (runStream_inv pc pj sf chunks)
  simp only [runStream]
  refine ⟨?_, a2, a3, a4⟩
  rw [a1]
  cases (((finalFlush pc pj sf
      (runChunks pc pj sf ⟨⟨[], 0, false⟩, []⟩ chunks).1).1).inner).hasStartedContent with
  | true => simp
  | false => simp

theorem c1_witness :
    countP isTextStart (runStream demoParseChunk demoParseJson demoStringify
        [sseLine chunkTextOnly]) ≤ 1 ∧
    countP isBadTextStart (runStream demoParseChunk demoParseJson demoStringify
        [sseLine chunkTextOnly]) = 0 ∧
    TextOkFrom 0 (runStream demoParseChunk demoParseJson demoStringify
        [sseLine chunkTextOnly]) ∧
    ToolAdj (runStream demoParseChunk demoParseJson demoStringify [sseLine chunkTextOnly]) :=
  c1_block_lifecycle_amended demoParseChunk demoParseJson demoStringify [sseLine chunkTextOnly]

/-! ## Claim C3 -/

/-- C3 counterexample: a stream whose single chunk carries a text delta
*and* a finish reason.  The finish signal closes index 0, yet the
end-of-stream safety net emits a second `content_block_stop` for index 0
anyway — the code emits the final stop whenever a text block was opened,
regardless of whether the finish signal already closed it, falsifying
"only when ... has not already been closed by the finish signal". -/
theorem c3_counterexample :
    runStream demoParseChunk demoParseJson demoStringify [sseLine chunkTextFinish]
      = [.message_start, .content_block_start 0 .text,
         .content_block_delta 0 (.text_delta "hi"), .content_block_stop 0,
         .content_block_stop 0, .message_stop] ∧
    countP (isStopAt 0) (runStream demoParseChunk demoParseJson demoStringify
        [sseLine chunkTextFinish]) = 2 :=
  ⟨rfl, rfl⟩

/-- C3 amended: exactly one `message_start`, emitted first, and exactly
one `message_stop`, emitted last; the chunk-derived events in between
contain neither; and the final safety-net `content_block_stop` for
index 0 is emitted whenever a text block was opened — even if the finish
signal or a `[DONE]` line already closed it. -/
theorem c3_message_boundaries_amended (pc : ParseChunk) (pj : ParseJson)
    (sf : StringifyJson) (chunks : List (List Char)) :
    countP isMsgStart (runStream pc pj sf chunks) = 1 ∧
    countP isMsgStop (runStream pc pj sf chunks) = 1 ∧
    ∃ (mid : List AEvent) (h : Bool),
      runStream pc pj sf chunks
        = .message_start :: (mid ++ (if h then [AEvent.content_block_stop 0] else [])
            ++ [.message_stop]) ∧
      countP isMsgStart mid = 0 ∧ countP isMsgStop mid = 0 ∧
      countP isTextStart mid = (if h then 1 else 0) := by
  obtain ⟨i1, -, -, i4, i5, -⟩ := runStream_inv pc pj sf chunks
  obtain ⟨-, -, -, -, a5, a6⟩ := stream_run_assemble _ _ (runStream_inv pc pj sf chunks)
  simp only [runStream] at a5 a6 ⊢
  exact ⟨a5, a6,
    (runChunks pc pj sf ⟨⟨[], 0, false⟩, []⟩ chunks).2
      ++ (finalFlush pc pj sf (runChunks pc pj sf ⟨⟨[], 0, false⟩, []⟩ chunks).1).2,
    (((finalFlush pc pj sf
      (runChunks pc pj sf ⟨⟨[], 0, false⟩, []⟩ chunks).1).1).inner).hasStartedContent,
    rfl, i4, i5, i1⟩

theorem c3_witness :
    countP isMsgStart (runStream demoParseChunk demoParseJson demoStringify
        [sseLine chunkTextFinish, ("data: [DONE]\n" : String).data]) = 1 ∧
    countP isMsgStop (runStream demoParseChunk demoParseJson demoStringify
        [sseLine chunkTextFinish, ("data: [DONE]\n" : String).data]) = 1 ∧
    ∃ (mid : List AEvent) (h : Bool),
      runStream demoParseChunk demoParseJson demoStringify
          [sseLine chunkTextFinish, ("data: [DONE]\n" : String).data]
        = .message_start :: (mid ++ (if h then [AEvent.content_block_stop 0] else [])
            ++ [.message_stop]) ∧
      countP isMsgStart mid = 0 ∧ countP isMsgStop mid = 0 ∧
      countP isTextStart mid = (if h then 1 else 0) :=
  c3_message_boundaries_amended demoParseChunk demoParseJson demoStringify
    [sseLine chunkTextFinish, ("data: [DONE]\n" : String).data]

/-! ## Claim C2 -/

theorem updateEntry_args (e : BufEntry) (tc : ToolCallDelta) :
    (updateEntry e tc).args
      = if truthyStr tc.fargs then some (e.args.getD "" ++ tc.fargs.getD "")
        else e.args := by
  rw [updateEntry]
  by_cases h1 : truthyStr tc.id = true
  · by_cases h2 : truthyStr tc.fname = true
    · by_cases h3 : truthyStr tc.fargs = true
      · rw [if_pos h1, if_pos h2, if_pos h3, if_pos h3]
      · rw [if_pos h1, if_pos h2, if_neg h3, if_neg h3]
    · by_cases h3 : truthyStr tc.fargs = true
      · rw [if_pos h1, if_neg h2, if_pos h3, if_pos h3]
      · rw [if_pos h1, if_neg h2, if_neg h3, if_neg h3]
  · by_cases h2 : truthyStr tc.fname = true
    · by_cases h3 : truthyStr tc.fargs = true
      · rw [if_neg h1, if_pos h2, if_pos h3, if_pos h3]
      · rw [if_neg h1, if_pos h2, if_neg h3, if_neg h3]
    · by_cases h3 : truthyStr tc.fargs = true
      · rw [if_neg h1, if_neg h2, if_pos h3, if_pos h3]
      · rw [if_neg h1, if_neg h2, if_neg h3, if_neg h3]

set_option maxRecDepth 8000 in
/-- C2 counterexample: the claim says clearing the buffer makes the
lifecycle fire "at most once per position".  An upstream that delivers a
complete tool call at position 0 and later delivers another complete set
of deltas for the same position 0 makes the lifecycle fire twice for that
position (the cleared buffer is simply re-created). -/
theorem c2_counterexample :
    runStream demoParseChunk demoParseJson demoStringify
        [sseLine chunkToolComplete, sseLine chunkToolComplete]
      = [.message_start, .content_block_start 0 (.tool_use "call_1" "lookup"),
         .content_block_delta 0 (.input_json_delta "\x7b\x7d"), .content_block_stop 0,
         .content_block_start 0 (.tool_use "call_1" "lookup"),
         .content_block_delta 0 (.input_json_delta "\x7b\x7d"), .content_block_stop 0,
         .message_stop] ∧
    countP isToolStart (runStream demoParseChunk demoParseJson demoStringify
        [sseLine chunkToolComplete, sseLine chunkToolComplete]) = 2 :=
  ⟨rfl, rfl⟩

/-- C2 amended: per tool-call position, `arguments` fragments are
accumulated by string concatenation (never overwritten, and untouched
when no fragment arrives); no lifecycle event is emitted until the
updated entry has truthy `id`, `name` and accumulated `arguments` that
parse as JSON (the updated entry stays buffered); on success exactly the
three-event lifecycle is pushed — `content_block_start` with the buffered
id/name, one `input_json_delta` carrying the re-serialized parsed
arguments, `content_block_stop` — and the position's buffer entry is
deleted, so one accumulation fires exactly once; the lifecycle can recur
at a position only if the upstream delivers a fresh accumulation for that
position after the first completion. -/
theorem c2_tool_call_buffering_amended :
    (∀ (e : BufEntry) (tc : ToolCallDelta) (old frag : String),
       e.args = some old → tc.fargs = some frag → frag ≠ "" →
       (updateEntry e tc).args = some (old ++ frag)) ∧
    (∀ (e : BufEntry) (tc : ToolCallDelta), truthyStr tc.fargs = false →
       (updateEntry e tc).args = e.args) ∧
    (∀ (pj : ParseJson) (sf : StringifyJson) (tb : ToolBuf) (tn ti : Nat)
       (tc : ToolCallDelta),
       ¬(truthyStr (updateEntry ((bufGet tb (tc.index.getD 0)).getD BufEntry.empty) tc).id
          && truthyStr (updateEntry ((bufGet tb (tc.index.getD 0)).getD BufEntry.empty)
            tc).name
          && truthyStr (updateEntry ((bufGet tb (tc.index.getD 0)).getD BufEntry.empty)
            tc).args) = true →
       stepToolCall pj sf tb tn ti tc
         = (bufSet tb (tc.index.getD 0)
             (updateEntry ((bufGet tb (tc.index.getD 0)).getD BufEntry.empty) tc), ti, [])) ∧
    (∀ (pj : ParseJson) (sf : StringifyJson) (tb : ToolBuf) (tn ti : Nat)
       (tc : ToolCallDelta) (j : Json),
       (truthyStr (updateEntry ((bufGet tb (tc.index.getD 0)).getD BufEntry.empty) tc).id
          && truthyStr (updateEntry ((bufGet tb (tc.index.getD 0)).getD BufEntry.empty)
            tc).name
          && truthyStr (updateEntry ((bufGet tb (tc.index.getD 0)).getD BufEntry.empty)
            tc).args) = true →
       pj ((updateEntry ((bufGet tb (tc.index.getD 0)).getD BufEntry.empty) tc).args.getD "")
         = some j →
       stepToolCall pj sf tb tn ti tc
         = (bufDel (bufSet tb (tc.index.getD 0)
              (updateEntry ((bufGet tb (tc.index.getD 0)).getD BufEntry.empty) tc))
              (tc.index.getD 0),
            max ti (tc.index.getD 0 + 1),
            [.content_block_start (if tn > 0 then 1 + tc.index.getD 0 else tc.index.getD 0)
               (.tool_use
                 ((updateEntry ((bufGet tb (tc.index.getD 0)).getD BufEntry.empty)
                   tc).id.getD "")
                 ((updateEntry ((bufGet tb (tc.index.getD 0)).getD BufEntry.empty)
                   tc).name.getD "")),
             .content_block_delta
               (if tn > 0 then 1 + tc.index.getD 0 else tc.index.getD 0)
               (.input_json_delta (sf j)),
             .content_block_stop
               (if tn > 0 then 1 + tc.index.getD 0 else tc.index.getD 0)])) := by
  refine ⟨?_, ?_, ?_, ?_⟩
  · intro e tc old frag ho hf hne
    rw [updateEntry_args, hf]
    rw [if_pos (by simp [truthyStr, hne])]
    rw [ho]
    rfl
  · intro e tc hf
    rw [updateEntry_args, hf]
    simp
  · intro pj sf tb tn ti tc hc
    rw [stepToolCall, if_neg hc]
  · intro pj sf tb tn ti tc j hc hpj
    rw [stepToolCall, if_pos hc, hpj]

theorem c2_witness :
    ((⟨some "call_2", some "add", some "\x7b\"a\":"⟩ : BufEntry).args = some "\x7b\"a\":") ∧
    ((⟨some 0, none, none, some "1\x7d"⟩ : ToolCallDelta).fargs = some "1\x7d") ∧
    ("1\x7d" : String) ≠ "" ∧
    (updateEntry ⟨some "call_2", some "add", some "\x7b\"a\":"⟩
        ⟨some 0, none, none, some "1\x7d"⟩).args = some ("\x7b\"a\":" ++ "1\x7d") ∧
    (truthyStr (updateEntry ((bufGet [(0, ⟨some "call_2", some "add",
          some "\x7b\"a\":"⟩)] ((⟨some 0, none, none, some "1\x7d"⟩ :
          ToolCallDelta).index.getD 0)).getD BufEntry.empty)
        ⟨some 0, none, none, some "1\x7d"⟩).id
      && truthyStr (updateEntry ((bufGet [(0, ⟨some "call_2", some "add",
          some "\x7b\"a\":"⟩)] ((⟨some 0, none, none, some "1\x7d"⟩ :
          ToolCallDelta).index.getD 0)).getD BufEntry.empty)
        ⟨some 0, none, none, some "1\x7d"⟩).name
      && truthyStr (updateEntry ((bufGet [(0, ⟨some "call_2", some "add",
          some "\x7b\"a\":"⟩)] ((⟨some 0, none, none, some "1\x7d"⟩ :
          ToolCallDelta).index.getD 0)).getD BufEntry.empty)
        ⟨some 0, none, none, some "1\x7d"⟩).args) = true ∧
    stepToolCall demoParseJson demoStringify
        [(0, ⟨some "call_2", some "add", some "\x7b\"a\":"⟩)] 0 0
        ⟨some 0, none, none, some "1\x7d"⟩
      = (bufDel (bufSet [(0, ⟨some "call_2", some "add", some "\x7b\"a\":"⟩)] 0
           (updateEntry ((bufGet [(0, ⟨some "call_2", some "add", some "\x7b\"a\":"⟩)]
             0).getD BufEntry.empty) ⟨some 0, none, none, some "1\x7d"⟩)) 0,
         max 0 (0 + 1),
         [.content_block_start 0 (.tool_use "call_2" "add"),
          .content_block_delta 0 (.input_json_delta "\x7b\"a\":1\x7d"),
          .content_block_stop 0]) := by
  refine ⟨rfl, rfl, by decide, ?_, rfl, ?_⟩
  · exact c2_tool_call_buffering_amended.1 ⟨some "call_2", some "add", some "\x7b\"a\":"⟩
      ⟨some 0, none, none, some "1\x7d"⟩ "\x7b\"a\":" "1\x7d" rfl rfl (by decide)
  · exact c2_tool_call_buffering_amended.2.2.2 demoParseJson demoStringify
      [(0, ⟨some "call_2", some "add", some "\x7b\"a\":"⟩)] 0 0
      ⟨some 0, none, none, some "1\x7d"⟩ (.obj [("a", .num 1)]) rfl rfl

end ApexProxy
